import Mathlib

/-!
# LotusDB value log and hash-skiplist: a shallow embedding

The value log (`vlog/vlog.go`) is embedded function by function.  Go values are
modelled as follows.

* `uint32` and `uint64` values are natural numbers; every conversion or
  increment that the source performs in 32 bits is written with an explicit
  `% 2 ^ 32`.
* An `int64` value is an integer in `[-2 ^ 63, 2 ^ 63)`.  The write cursor of a
  segment has the type `I64` of these integers; every sum or difference that
  the source takes in `int64` is written with `wrapInt64`, which reduces
  modulo `2 ^ 64` into that range.
* A `[]byte` is `Option (List (Fin 256))`, `none` being the nil slice.
* A `*LogFile` is a value; a `*ValuePos` argument that may be nil is an
  `Option`.  Methods that mutate their receiver return the new value.
* Locks are not modelled: every operation runs to completion on its own.
* After a rotation whose segment creation fails, the Go catalogue entry and
  the active pointer are one object; the embedding stores the value of that
  moment in the catalogue.  `ReadValue` consults the active segment before the
  catalogue and the next rotation overwrites the entry, so the stored copy is
  never read.
* `package logfile` is not part of the sources at hand.  Its operations are the
  fields of a record `Logfile W ι`, where `W` is the state of the outside
  world (the directory and the files) and `ι` the type of a bound I/O
  resource.  Every operation threads the world explicitly.
* A Go call ends in one of three ways: it returns a value, it returns an
  error, or it panics.  `Result` has one constructor for each.
-/

namespace LotusDB

/-! ## Data model -/

deriving instance DecidableEq for Except

/-- The value that `int64` arithmetic keeps of an integer: its representative
modulo `2 ^ 64` in `[-2 ^ 63, 2 ^ 63)`. -/
def wrapInt64 (x : Int) : Int :=
  (x + 9223372036854775808) % 18446744073709551616 - 9223372036854775808

/-- Go `int64`: an integer in `[-2 ^ 63, 2 ^ 63)`. -/
structure I64 where
  val : Int
  inRange : -9223372036854775808 ≤ val ∧ val < 9223372036854775808
deriving DecidableEq

instance : Coe I64 Int := ⟨I64.val⟩

/-- The conversion `int64(x)`. -/
def I64.wrap (x : Int) : I64 :=
  ⟨wrapInt64 x, by unfold wrapInt64; omega⟩

instance (n : Nat) : OfNat I64 n := ⟨I64.wrap n⟩

instance : Repr I64 := ⟨fun x n => reprPrec x.val n⟩

/-- Go `[]byte`; `none` is the nil slice. -/
abbrev Bytes := Option (List (Fin 256))

/-- Number of bytes of a slice (`len`). -/
def Bytes.len (b : Bytes) : Nat := (b.getD []).length

/-- Go `logfile.LogEntry`: key, value and expiry (`uint64`, seconds). -/
structure LogEntry where
  Key : Bytes
  Value : Bytes
  ExpiredAt : Nat
deriving DecidableEq, Repr

/-- An error produced outside `package vlog` (operating system, `logfile`). -/
structure ExtErr where
  code : Nat
deriving DecidableEq, Repr

/-- The two kinds of `*strconv.NumError` that `strconv.Atoi` returns. -/
inductive NumError where
  | ErrSyntax
  | ErrRange
deriving DecidableEq, Repr

/-- Error values returned by the value log. -/
inductive Error where
  /-- Go `ErrActiveLogFileNil`. -/
  | ErrActiveLogFileNil
  /-- Go `fmt.Errorf(ErrLogFileNil.Error(), fid)`: "log file %d not exists". -/
  | ErrLogFileNil (fid : Nat)
  /-- An error returned by `strconv.Atoi`. -/
  | parse (e : NumError)
  /-- An error passed on from the operating system or `package logfile`. -/
  | ext (e : ExtErr)
deriving DecidableEq, Repr

/-- Why a call panicked. -/
inductive PanicKind where
  | indexOutOfRange
  | nilDereference
deriving DecidableEq, Repr

/-- Outcome of a Go call: a value, an error, or a run-time panic. -/
inductive Result (α : Type) where
  | ok (a : α)
  | error (e : Error)
  | panicked (p : PanicKind)
deriving DecidableEq, Repr

/-- Go `logfile.FileType`. -/
inductive FileType where
  | WAL
  | ValueLog
deriving DecidableEq, Repr

/-- Go `logfile.IOType`, passed on unchanged. -/
abbrev IoType := Nat

/-- Go `logfile.LogFile`: segment id (`uint32`), write cursor (`int64`) and the
I/O resource, `none` while it is not bound. -/
structure LogFile (ι : Type) where
  Fid : Nat
  WriteAt : I64
  IoSelector : Option ι
deriving DecidableEq, Repr

/-- Go `ValuePos`: fid (`uint32`), offset (`int64`), size (`uint32`). -/
structure ValuePos where
  fid : Nat
  offset : Int
  size : Nat
deriving DecidableEq, Repr

/-- The `options` struct of `ValueLog`. -/
structure options where
  path : String
  blockSize : Int
  ioType : IoType
deriving DecidableEq, Repr

/-- Go `ValueLog`: options, the active segment (a pointer, possibly nil) and the
catalogue `logFiles` (a Go map from `uint32` to `*LogFile`). -/
structure ValueLog (ι : Type) where
  opt : options
  activeLogFile : Option (LogFile ι)
  logFiles : Nat → Option (LogFile ι)

/-! ## The collaborator `package logfile` and the operating system -/

/-- Modelled from the spec: the operations of `package logfile` and of the
directory listing, whose sources are missing.  The spec lists them as
`open(path, id, blockSizeLimit, kind, ioStrategy) -> Segment`,
`Segment.append(Entry)`, `Segment.readAt(offset) -> Entry`, `Segment.sync()`,
`Segment.close()`, `Entry.size()`.  A segment is identified by its id, so the
operations yield cursors and resources but never an id. -/
structure Logfile (W ι : Type) where
  /-- Go `logfile.VLogSuffixName`. -/
  VLogSuffixName : String
  /-- Go `(*LogEntry).Size`: serialized length of an entry. -/
  Size : LogEntry → Nat
  /-- Go `ioutil.ReadDir`: names of the files in a directory. -/
  ReadDir : W → String → W × Except ExtErr (List String)
  /-- Binds the resource of segment `fid`; yields its cursor and resource. -/
  openFile : W → String → Nat → Int → FileType → IoType → W × Except ExtErr (I64 × ι)
  /-- Reads the entry stored at an offset of a segment. -/
  readAt : W → LogFile ι → Int → W × Except ExtErr LogEntry
  /-- Appends an entry; yields the cursor and resource after the call. -/
  append : W → LogFile ι → LogEntry → W × (I64 × Option ι) × Option ExtErr
  /-- Flushes a segment. -/
  sync : W → LogFile ι → W × (I64 × Option ι) × Option ExtErr
  /-- Closes a segment. -/
  close : W → LogFile ι → W × (I64 × Option ι) × Option ExtErr

section logfile
variable {W ι : Type}

/-- Modelled from the spec: `logfile.OpenLogFile`, missing from the sources.
The segment it returns is the one identified by `fid`, with its resource
bound. -/
def OpenLogFile (env : Logfile W ι) (w : W) (path : String) (fid : Nat) (fsize : Int)
    (ftype : FileType) (ioType : IoType) : W × Except ExtErr (LogFile ι) :=
  match env.openFile w path fid fsize ftype ioType with
  | (w1, .ok (cursor, sel)) => (w1, .ok { Fid := fid, WriteAt := cursor, IoSelector := some sel })
  | (w1, .error err) => (w1, .error err)

/-- Rebuilds a segment from the cursor and resource an operation left. -/
def LogFile.after (lf : LogFile ι) (r : I64 × Option ι) : LogFile ι :=
  { Fid := lf.Fid, WriteAt := r.1, IoSelector := r.2 }

/-- Modelled from the spec: `(*LogFile).Write`, missing from the sources. -/
def LogFile.Write (env : Logfile W ι) (w : W) (lf : LogFile ι) (e : LogEntry) :
    W × LogFile ι × Option ExtErr :=
  let r := env.append w lf e
  (r.1, lf.after r.2.1, r.2.2)

/-- Modelled from the spec: `(*LogFile).Read`, missing from the sources. -/
def LogFile.Read (env : Logfile W ι) (w : W) (lf : LogFile ι) (offset : Int) :
    W × Except ExtErr LogEntry :=
  env.readAt w lf offset

/-- Modelled from the spec: `(*LogFile).Sync`, missing from the sources. -/
def LogFile.Sync (env : Logfile W ι) (w : W) (lf : LogFile ι) :
    W × LogFile ι × Option ExtErr :=
  let r := env.sync w lf
  (r.1, lf.after r.2.1, r.2.2)

/-- Modelled from the spec: `(*LogFile).Close`, missing from the sources. -/
def LogFile.Close (env : Logfile W ι) (w : W) (lf : LogFile ι) :
    W × LogFile ι × Option ExtErr :=
  let r := env.close w lf
  (r.1, lf.after r.2.1, r.2.2)

end logfile

/-! ## Go library functions used by `OpenValueLog` -/

/-- Go `strings.Contains(s, substr)` on the characters of the two strings. -/
def stringsContains : List Char → List Char → Bool
  | [], substr => substr.isEmpty
  | c :: s, substr => substr.isPrefixOf (c :: s) || stringsContains s substr

/-- Go `strings.Split(s, ".")[0]`: the text before the first dot. -/
def splitNames0 (s : List Char) : List Char :=
  s.takeWhile (fun c => c != '.')

/-- Value of a decimal digit. -/
def digitVal (c : Char) : Option Nat :=
  if 48 ≤ c.toNat ∧ c.toNat ≤ 57 then some (c.toNat - 48) else none

/-- The digit loop of `strconv.ParseUint(s, 10, 64)`: a character that is no
digit is a syntax error, a value beyond `2 ^ 64 - 1` a range error, whichever
comes first. -/
def parseUintLoop : List Char → Nat → Except NumError Nat
  | [], n => .ok n
  | c :: s, n =>
    match digitVal c with
    | none => .error .ErrSyntax
    | some d => if n * 10 + d < 2 ^ 64 then parseUintLoop s (n * 10 + d) else .error .ErrRange

/-- Go `strconv.Atoi` where `int` has 64 bits: an optional sign, then at least one
decimal digit, the value within `[-2 ^ 63, 2 ^ 63 - 1]`. -/
def Atoi (s : List Char) : Except NumError Int :=
  match s with
  | [] => .error .ErrSyntax
  | c :: rest =>
    let neg := c == '-'
    let body := if c == '-' || c == '+' then rest else c :: rest
    if body.isEmpty then .error .ErrSyntax
    else
      match parseUintLoop body 0 with
      | .error err => .error err
      | .ok un =>
        if !neg && un ≥ 2 ^ 63 then .error .ErrRange
        else if neg && un > 2 ^ 63 then .error .ErrRange
        else .ok (if neg then -(un : Int) else (un : Int))

/-- The conversion `uint32(x)` of a Go `int`. -/
def toUint32 (x : Int) : Nat := (x % 4294967296).toNat

/-- The conversion `uint64(x)` of an `int64`. -/
def toUint64 (x : Int) : Nat := (x % 18446744073709551616).toNat

/-! ## `package vlog` -/

section vlog
variable {W ι : Type}

/-- The loop of `OpenValueLog` over the directory entries: every name that
contains the value-log suffix contributes `uint32(fid)`, where `fid` is
`strconv.Atoi` of the text before the first dot; the first name that does not
parse ends the loop with the error. -/
def collectFids (suffix : String) : List String → List Nat → Except NumError (List Nat)
  | [], fids => .ok fids
  | name :: files, fids =>
    if stringsContains name.toList suffix.toList then
      match Atoi (splitNames0 name.toList) with
      | .error err => .error err
      | .ok fid => collectFids suffix files (fids ++ [toUint32 fid])
    else collectFids suffix files fids

/-- The placeholder `&logfile.LogFile{Fid: fid}` of a segment not yet read. -/
def placeholder (fid : Nat) : LogFile ι :=
  { Fid := fid, WriteAt := 0, IoSelector := none }

/-- The last loop of `OpenValueLog`: `logFiles[fid] = &LogFile{Fid: fid}` for
every id of the list, starting from the empty map. -/
def registerAll (fids : List Nat) : Nat → Option (LogFile ι) :=
  fids.foldl (fun m fid => Function.update m fid (some (placeholder fid))) (fun _ => none)

/-- Go `OpenValueLog`.  Indexing `fids[len(fids)-1]` panics when no name
matched. -/
def OpenValueLog (env : Logfile W ι) (w : W) (path : String) (blockSize : Int)
    (ioType : IoType) : W × Result (ValueLog ι) :=
  let opt : options := { path := path, blockSize := blockSize, ioType := ioType }
  match env.ReadDir w path with
  | (w1, .error err) => (w1, .error (.ext err))
  | (w1, .ok fileInfos) =>
    match collectFids env.VLogSuffixName fileInfos [] with
    | .error err => (w1, .error (.parse err))
    | .ok unsorted =>
      let fids := unsorted.insertionSort (fun a b => a ≤ b)
      match fids.getLast? with
      | none => (w1, .panicked .indexOutOfRange)
      | some last =>
        match OpenLogFile env w1 path last opt.blockSize .ValueLog opt.ioType with
        | (w2, .error err) => (w2, .error (.ext err))
        | (w2, .ok logFile) =>
          (w2, .ok { opt := opt, activeLogFile := some logFile,
                     logFiles := registerAll fids.dropLast })

/-- The first half of `ValueLog.ReadValue`: the segment that `pos.fid` names.
A catalogued segment without a bound resource is opened and stored back in
the catalogue.  The outcome is `.ok none` when no segment has that id. -/
def selectLogFile (env : Logfile W ι) (w : W) (vlog : ValueLog ι) (active : LogFile ι)
    (fid : Nat) : W × ValueLog ι × Except ExtErr (Option (LogFile ι)) :=
  if fid = active.Fid then (w, vlog, .ok (some active))
  else
    match vlog.logFiles fid with
    | none => (w, vlog, .ok none)
    | some logFile =>
      if logFile.IoSelector.isNone then
        match OpenLogFile env w vlog.opt.path fid vlog.opt.blockSize .ValueLog vlog.opt.ioType with
        | (w1, .error err) => (w1, vlog, .error err)
        | (w1, .ok lf) =>
          (w1, { vlog with logFiles := Function.update vlog.logFiles fid (some lf) }, .ok (some lf))
      else (w, vlog, .ok (some logFile))

/-- Go `ValueLog.ReadValue`; `now` is `time.Now().Unix()`.  The value returned is
the nil slice for a nil position and for an entry taken as expired. -/
def ReadValue (env : Logfile W ι) (now : Int) (w : W) (vlog : ValueLog ι)
    (pos : Option ValuePos) : W × ValueLog ι × Result Bytes :=
  match pos with
  | none => (w, vlog, .ok none)
  | some pos =>
    match vlog.activeLogFile with
    | none => (w, vlog, .panicked .nilDereference)
    | some active =>
      match selectLogFile env w vlog active pos.fid with
      | (w1, vlog1, .error err) => (w1, vlog1, .error (.ext err))
      | (w1, vlog1, .ok none) => (w1, vlog1, .error (.ErrLogFileNil pos.fid))
      | (w1, vlog1, .ok (some logFile)) =>
        match LogFile.Read env w1 logFile pos.offset with
        | (w2, .error err) => (w2, vlog1, .error (.ext err))
        | (w2, .ok logEntry) =>
          if logEntry.ExpiredAt ≤ toUint64 now then (w2, vlog1, .ok none)
          else (w2, vlog1, .ok logEntry.Value)

/-- Go `ValueLog.createLogFile`: opens segment `fid + 1`, the sum taken in
`uint32`. -/
def createLogFile (env : Logfile W ι) (w : W) (vlog : ValueLog ι) (active : LogFile ι) :
    W × Except ExtErr (LogFile ι) :=
  OpenLogFile env w vlog.opt.path ((active.Fid + 1) % 4294967296) vlog.opt.blockSize
    .ValueLog vlog.opt.ioType

/-- The tail of `ValueLog.Write`: the append to the active segment and the
position made from its id and cursor; `eSize` is `int64(e.Size())`, the
offset `WriteAt - eSize` is taken in `int64` and the size is `uint32(eSize)`. -/
def appendActive (env : Logfile W ι) (w : W) (vlog : ValueLog ι) (active : LogFile ι)
    (e : LogEntry) : W × ValueLog ι × Result ValuePos :=
  let eSize : Int := wrapInt64 (env.Size e : Int)
  match LogFile.Write env w active e with
  | (w1, active1, some err) => (w1, { vlog with activeLogFile := some active1 }, .error (.ext err))
  | (w1, active1, none) =>
    (w1, { vlog with activeLogFile := some active1 },
      .ok { fid := active1.Fid, offset := wrapInt64 (active1.WriteAt - eSize),
            size := toUint32 eSize })

/-- Go `ValueLog.Write`; `eSize` is `int64(e.Size())` and the sum
`WriteAt + eSize` of the threshold test is taken in `int64`.  When the
threshold is reached the active segment is closed and entered in the
catalogue, then the next segment is created; an error of the creation leaves
the catalogue entry in place. -/
def Write (env : Logfile W ι) (w : W) (vlog : ValueLog ι) (e : LogEntry) :
    W × ValueLog ι × Result ValuePos :=
  let eSize : Int := wrapInt64 (env.Size e : Int)
  match vlog.activeLogFile with
  | none => (w, vlog, .panicked .nilDereference)
  | some active =>
    if wrapInt64 (active.WriteAt + eSize) ≥ vlog.opt.blockSize then
      match LogFile.Close env w active with
      | (w1, closed, some err) => (w1, { vlog with activeLogFile := some closed }, .error (.ext err))
      | (w1, closed, none) =>
        let vlog1 : ValueLog ι :=
          { vlog with activeLogFile := some closed,
                      logFiles := Function.update vlog.logFiles closed.Fid (some closed) }
        match createLogFile env w1 vlog1 closed with
        | (w2, .error err) => (w2, vlog1, .error (.ext err))
        | (w2, .ok logFile) =>
          appendActive env w2 { vlog1 with activeLogFile := some logFile } logFile e
    else appendActive env w vlog active e

/-- Go `ValueLog.Sync`. -/
def Sync (env : Logfile W ι) (w : W) (vlog : ValueLog ι) : W × ValueLog ι × Option Error :=
  match vlog.activeLogFile with
  | none => (w, vlog, some .ErrActiveLogFileNil)
  | some active =>
    match LogFile.Sync env w active with
    | (w1, active1, err) => (w1, { vlog with activeLogFile := some active1 }, err.map .ext)

/-- Go `ValueLog.Close`. -/
def Close (env : Logfile W ι) (w : W) (vlog : ValueLog ι) : W × ValueLog ι × Option Error :=
  match vlog.activeLogFile with
  | none => (w, vlog, some .ErrActiveLogFileNil)
  | some active =>
    match LogFile.Close env w active with
    | (w1, active1, err) => (w1, { vlog with activeLogFile := some active1 }, err.map .ext)

end vlog

/-! ## A collaborator held in memory

The theorems below hold for every collaborator.  To run the value log on
concrete inputs, the following one keeps the directory and the records of all
segments in a value of type `Disk`. -/

/-- A directory: the names listed, the records written (segment id, offset,
entry) in the order of writing, and the segment ids that cannot be opened. -/
structure Disk where
  names : List String
  records : List (Nat × Int × LogEntry)
  refused : List Nat
deriving DecidableEq, Repr

/-- Entry size of the in-memory collaborator: key bytes plus value bytes. -/
def memSize (e : LogEntry) : Nat := e.Key.len + e.Value.len

/-- End of the data of segment `fid` on a disk. -/
def Disk.cursor (d : Disk) (fid : Nat) : Int :=
  ((d.records.filter (fun r => r.1 == fid)).map (fun r => (memSize r.2.2 : Int))).sum

/-- The in-memory collaborator.  A segment that is opened starts at the end of
its data (cursor 0 when it is new); an append stores the entry at the cursor
and advances the cursor by the entry size, and fails (file too large) when
the new cursor would exceed `2 ^ 63 - 1`; a read returns the entry stored at
exactly that offset; sync and close succeed. -/
def memEnv : Logfile Disk Unit where
  VLogSuffixName := ".vlog"
  Size := memSize
  ReadDir := fun d _ => (d, .ok d.names)
  openFile := fun d _ fid _ _ _ =>
    if fid ∈ d.refused then (d, .error ⟨13⟩) else (d, .ok (I64.wrap (d.cursor fid), ()))
  readAt := fun d lf offset =>
    match d.records.find? (fun r => r.1 == lf.Fid && r.2.1 == offset) with
    | some r => (d, .ok r.2.2)
    | none => (d, .error ⟨2⟩)
  append := fun d lf e =>
    if lf.WriteAt + (memSize e : Int) < 9223372036854775808 then
      ({ d with records := d.records ++ [(lf.Fid, lf.WriteAt.val, e)] },
        (I64.wrap (lf.WriteAt + (memSize e : Int)), lf.IoSelector), none)
    else (d, (lf.WriteAt, lf.IoSelector), some ⟨27⟩)
  sync := fun d lf => (d, (lf.WriteAt, lf.IoSelector), none)
  close := fun d lf => (d, (lf.WriteAt, lf.IoSelector), none)

/-- The in-memory collaborator with a cursor that is advanced in `int64`
without a check: an append always succeeds and the cursor wraps past
`2 ^ 63 - 1`. -/
def memEnvWrap : Logfile Disk Unit :=
  { memEnv with
    append := fun d lf e =>
      ({ d with records := d.records ++ [(lf.Fid, lf.WriteAt.val, e)] },
        (I64.wrap (lf.WriteAt + (memSize e : Int)), lf.IoSelector), none) }

/-- The in-memory collaborator with an append that stores the entry and
leaves the cursor where it was. -/
def memEnvStuck : Logfile Disk Unit :=
  { memEnv with
    append := fun d lf e =>
      ({ d with records := d.records ++ [(lf.Fid, lf.WriteAt.val, e)] },
        (lf.WriteAt, lf.IoSelector), none) }

/-- A directory that holds the single, empty segment `0`. -/
def disk0 : Disk := { names := ["0.vlog"], records := [], refused := [] }

/-- The value log opened on `disk0` with block size 1024. -/
def vlog0 : ValueLog Unit :=
  { opt := { path := "db", blockSize := 1024, ioType := 0 },
    activeLogFile := some { Fid := 0, WriteAt := 0, IoSelector := some () },
    logFiles := fun _ => none }

/-- The value log opened on segment `0` with block size 2. -/
def vlogSmall : ValueLog Unit :=
  { opt := { path := "db", blockSize := 2, ioType := 0 },
    activeLogFile := some { Fid := 0, WriteAt := 0, IoSelector := some () },
    logFiles := fun _ => none }

/-! ## Laws of a collaborator that some theorems assume -/

section laws
variable {W ι : Type}

/-- A successful append advances the cursor of the segment by exactly the
size of the entry. -/
def AppendAdvances (env : Logfile W ι) : Prop :=
  ∀ (w : W) (lf : LogFile ι) (e : LogEntry),
    (env.append w lf e).2.2 = none → (env.append w lf e).2.1.1 = lf.WriteAt + (env.Size e : Int)

/-- A successful append advances the cursor of the segment by exactly the
size of the entry, the sum being taken in `int64`. -/
def AppendAdvances64 (env : Logfile W ι) : Prop :=
  ∀ (w : W) (lf : LogFile ι) (e : LogEntry),
    (env.append w lf e).2.2 = none →
      (env.append w lf e).2.1.1 = wrapInt64 (lf.WriteAt + (env.Size e : Int))

end laws

/-! ## Concrete inputs -/

/-- An entry of two bytes without expiry. -/
def entryKV : LogEntry := { Key := some [107], Value := some [118], ExpiredAt := 0 }

/-- A directory whose single segment has the largest `uint32` id. -/
def diskMax : Disk := { names := ["4294967295.vlog"], records := [], refused := [] }

/-- The value log opened on `diskMax` with block size 2. -/
def vlogMax : ValueLog Unit :=
  { opt := { path := "db", blockSize := 2, ioType := 0 },
    activeLogFile := some { Fid := 4294967295, WriteAt := 0, IoSelector := some () },
    logFiles := fun _ => none }

/-- A directory whose single segment file carries a negative number. -/
def diskNeg : Disk := { names := ["-1.vlog"], records := [], refused := [] }

/-- A directory without any segment file. -/
def diskEmpty : Disk := { names := ["README.md"], records := [], refused := [] }

section rotation
variable {W ι : Type}

/-- The state in the middle of a rotation: the closed segment is both active
and catalogued. -/
def midRotation (vlog : ValueLog ι) (closed : LogFile ι) : ValueLog ι :=
  { vlog with activeLogFile := some closed,
              logFiles := Function.update vlog.logFiles closed.Fid (some closed) }

end rotation

/-- An entry with a key of one byte and a value of `n` zero bytes. -/
def entryOfValueLen (n : Nat) : LogEntry :=
  { Key := some [107], Value := some (List.replicate n 0), ExpiredAt := 0 }

/-- An entry of `2 ^ 32 + 1` bytes: a key of one byte, a value of `2 ^ 32`. -/
def entryHuge : LogEntry := entryOfValueLen 4294967296

/-- A value log on segment `0` whose block size exceeds the size of
`entryHuge`. -/
def vlogWide : ValueLog Unit :=
  { opt := { path := "db", blockSize := 1099511627776, ioType := 0 },
    activeLogFile := some { Fid := 0, WriteAt := 0, IoSelector := some () },
    logFiles := fun _ => none }

/-! ## Sequences of calls -/

section runs
variable {W ι : Type}

/-- Id of the active segment of a log (0 when the pointer is nil). -/
def activeFid (vlog : ValueLog ι) : Nat :=
  match vlog.activeLogFile with
  | some active => active.Fid
  | none => 0

/-- Calls `Write` on the entries in turn, as long as every call returns a
position.  The result holds the world and the log after the last call and,
for every call, the position it returned with the log it left. -/
def WriteAll (env : Logfile W ι) :
    W → ValueLog ι → List LogEntry → Option (W × ValueLog ι × List (ValuePos × ValueLog ι))
  | w, vlog, [] => some (w, vlog, [])
  | w, vlog, e :: es =>
    match Write env w vlog e with
    | (w1, vlog1, .ok p) =>
      match WriteAll env w1 vlog1 es with
      | some (w2, vlog2, trace) => some (w2, vlog2, (p, vlog1) :: trace)
      | none => none
    | _ => none

/-- Segment ids do not wrap along a sequence of writes: from one call to the
next the active id stays or grows by one. -/
def NoWrap (vlog : ValueLog ι) (trace : List (ValuePos × ValueLog ι)) : Prop :=
  List.Chain (fun a b => b = a ∨ b = a + 1) (activeFid vlog) (trace.map (fun s => activeFid s.2))

/-- The byte ranges `[offset, offset + size)` of two positions do not meet. -/
def ValuePos.disjoint (p q : ValuePos) : Prop :=
  p.offset + (p.size : Int) ≤ q.offset ∨ q.offset + (q.size : Int) ≤ p.offset

/-- A call of the public interface of the value log. -/
inductive Call where
  | write (e : LogEntry)
  | readValue (now : Int) (pos : Option ValuePos)
  | sync
  | close
deriving DecidableEq, Repr

/-- The world and the log that a call leaves, whatever it returns. -/
def step (env : Logfile W ι) (s : W × ValueLog ι) : Call → W × ValueLog ι
  | .write e => ((Write env s.1 s.2 e).1, (Write env s.1 s.2 e).2.1)
  | .readValue now pos => ((ReadValue env now s.1 s.2 pos).1, (ReadValue env now s.1 s.2 pos).2.1)
  | .sync => ((Sync env s.1 s.2).1, (Sync env s.1 s.2).2.1)
  | .close => ((Close env s.1 s.2).1, (Close env s.1 s.2).2.1)

/-- The world and the log after a sequence of calls. -/
def run (env : Logfile W ι) (s : W × ValueLog ι) (calls : List Call) : W × ValueLog ι :=
  calls.foldl (step env) s

/-- The call is a `Write` whose rotation closes the active segment and then
either would wrap the id (the active id is `2 ^ 32 - 1`) or fails to create
the next segment. -/
def brokenRotation (env : Logfile W ι) (s : W × ValueLog ι) : Call → Bool
  | .write e =>
    match s.2.activeLogFile with
    | none => false
    | some active =>
      decide (s.2.opt.blockSize ≤ wrapInt64 (active.WriteAt + wrapInt64 (env.Size e : Int))) &&
      (LogFile.Close env s.1 active).2.2.isNone &&
      (decide (4294967296 ≤ active.Fid + 1) ||
        match (createLogFile env (LogFile.Close env s.1 active).1 s.2
            (LogFile.Close env s.1 active).2.1).2 with
        | .ok _ => false
        | .error _ => true)
  | _ => false

/-- No call of the sequence is a broken rotation. -/
def noBrokenRotation (env : Logfile W ι) : W × ValueLog ι → List Call → Bool
  | _, [] => true
  | s, c :: cs => !brokenRotation env s c && noBrokenRotation env (step env s c) cs

/-- The invariant of the data model: there is an active segment, its id is no
key of the catalogue, and every key of the catalogue is smaller. -/
def Inv (vlog : ValueLog ι) : Prop :=
  ∃ active, vlog.activeLogFile = some active ∧ vlog.logFiles active.Fid = none ∧
    ∀ k, vlog.logFiles k ≠ none → k < active.Fid

/-- A position resolves in a log: its fid is the active id or a catalogue
key. -/
def Resolves (vlog : ValueLog ι) (fid : Nat) : Prop :=
  fid = activeFid vlog ∨ vlog.logFiles fid ≠ none

end runs

/-- An entry of 100 bytes: a key of 10 bytes and a value of 90. -/
def entry100 : LogEntry :=
  { Key := some (List.replicate 10 1), Value := some (List.replicate 90 2), ExpiredAt := 0 }

/-- A directory whose single segment `0` cannot be followed by a segment `1`. -/
def diskFull : Disk := { names := ["0.vlog"], records := [], refused := [1] }

/-- The log opened on segment `4294967295` with block size 1024. -/
def vlogMax1024 : ValueLog Unit :=
  { opt := { path := "db", blockSize := 1024, ioType := 0 },
    activeLogFile := some { Fid := 4294967295, WriteAt := 0, IoSelector := some () },
    logFiles := fun _ => none }

/-- Twelve writes of 100 bytes (one rotation), a read of an unknown segment,
a read of the first position, a sync and a close. -/
def sampleCalls : List Call :=
  List.replicate 12 (Call.write entry100) ++
    [Call.readValue 1700000000 (some { fid := 9, offset := 0, size := 100 }),
     Call.readValue 1700000000 (some { fid := 0, offset := 0, size := 100 }),
     Call.sync, Call.close]

/-- A value log on segment `0` whose cursor is the largest `int64`, with block
size 1024. -/
def vlogEdge : ValueLog Unit :=
  { opt := { path := "db", blockSize := 1024, ioType := 0 },
    activeLogFile := some { Fid := 0, WriteAt := 9223372036854775807, IoSelector := some () },
    logFiles := fun _ => none }

/-- A directory with the segments `0` and `4294967295`, segment `0` holding
one entry of 100 bytes. -/
def diskStale : Disk :=
  { names := ["0.vlog", "4294967295.vlog"], records := [(0, 0, entry100)], refused := [] }

/-- The value log opened on `diskStale` with block size 2. -/
def vlogStale : ValueLog Unit :=
  { opt := { path := "db", blockSize := 2, ioType := 0 },
    activeLogFile := some { Fid := 4294967295, WriteAt := 0, IoSelector := some () },
    logFiles := registerAll [0] }

/-- A value log on segment `0` whose cursor is negative, with block size
1024. -/
def vlogNegCursor : ValueLog Unit :=
  { opt := { path := "db", blockSize := 1024, ioType := 0 },
    activeLogFile := some { Fid := 0, WriteAt := I64.wrap (-5000), IoSelector := some () },
    logFiles := fun _ => none }

/-- A value log on segment `0` with the negative block size `-1`. -/
def vlogNegBlock : ValueLog Unit :=
  { opt := { path := "db", blockSize := -1, ioType := 0 },
    activeLogFile := some { Fid := 0, WriteAt := 0, IoSelector := some () },
    logFiles := fun _ => none }

/-! ## `package memtable` -/

/-- Byte-wise comparison of two keys, `bytes.Compare(a, b) < 0`. -/
def keyLt : List (Fin 256) → List (Fin 256) → Bool
  | [], [] => false
  | [], _ :: _ => true
  | _ :: _, [] => false
  | a :: as, b :: bs => decide (a < b) || (a == b && keyLt as bs)

/-- Modelled from the spec: the `HashSkipList` of `package memtable`, of which
only the tests are among the sources.  It owns a hash index from keys to
entries and an ordered index over the same keys, ascending by byte-wise
comparison.  A key is the byte string of the slice, so the nil slice and the
empty slice are the same key. -/
structure HashSkipList where
  hashIndex : List (Fin 256) → Option LogEntry
  orderedIndex : List (List (Fin 256) × LogEntry)

/-- Modelled from the spec: `NewHashSkipList`, "returns an empty index with no
keys". -/
def NewHashSkipList : HashSkipList :=
  { hashIndex := fun _ => none, orderedIndex := [] }

/-- Modelled from the spec: insertion into the ordered index; an entry with the
same key is replaced, otherwise the place is found by byte-wise comparison. -/
def orderedPut (key : List (Fin 256)) (entry : LogEntry) :
    List (List (Fin 256) × LogEntry) → List (List (Fin 256) × LogEntry)
  | [] => [(key, entry)]
  | (k, x) :: rest =>
    if key = k then (key, entry) :: rest
    else if keyLt key k then (key, entry) :: (k, x) :: rest
    else (k, x) :: orderedPut key entry rest

/-- Modelled from the spec: `HashSkipList.Put`, "builds an Entry from
key/value (expiry unset), inserts or replaces the binding for key in both
sub-structures, and returns the stored Entry". -/
def HashSkipList.Put (h : HashSkipList) (key value : Bytes) : HashSkipList × LogEntry :=
  let entry : LogEntry := { Key := key, Value := value, ExpiredAt := 0 }
  ({ hashIndex := Function.update h.hashIndex (key.getD []) (some entry),
     orderedIndex := orderedPut (key.getD []) entry h.orderedIndex }, entry)

/-- Modelled from the spec: `HashSkipList.Get`, the point lookup in the hash
index; `none` is "not found". -/
def HashSkipList.Get (h : HashSkipList) (key : Bytes) : Option LogEntry :=
  h.hashIndex (key.getD [])

/-- Modelled from the spec: `HashSkipList.Exist`, which agrees with
`Get(key) != not-found`. -/
def HashSkipList.Exist (h : HashSkipList) (key : Bytes) : Bool :=
  (h.Get key).isSome

/-- Modelled from the spec: `HashSkipList.Remove`, which deletes the binding
from both sub-structures; removing an absent key changes nothing. -/
def HashSkipList.Remove (h : HashSkipList) (key : Bytes) : HashSkipList :=
  { hashIndex := Function.update h.hashIndex (key.getD []) none,
    orderedIndex := h.orderedIndex.filter (fun kv => kv.1 != key.getD []) }

/-- The bytes of the string "lotusdb". -/
def lotusdb : Bytes := some [108, 111, 116, 117, 115, 100, 98]

/-! # Theorems -/

/-! ## Arithmetic in `int64` and `uint32` -/

theorem wrapInt64_of_inRange (x : Int)
    (h : -9223372036854775808 ≤ x ∧ x < 9223372036854775808) : wrapInt64 x = x := by
  unfold wrapInt64
  omega

theorem wrapInt64_add_wrapInt64 (a b : Int) :
    wrapInt64 (a + wrapInt64 b) = wrapInt64 (a + b) := by
  unfold wrapInt64
  omega

theorem wrapInt64_sub_wrapInt64 (a b : Int) :
    wrapInt64 (a - wrapInt64 b) = wrapInt64 (a - b) := by
  unfold wrapInt64
  omega

theorem wrapInt64_val (x : I64) : wrapInt64 x.val = x.val :=
  wrapInt64_of_inRange x.val x.inRange

theorem toUint32_wrapInt64 (n : Nat) : toUint32 (wrapInt64 (n : Int)) = n % 4294967296 := by
  unfold toUint32 wrapInt64
  omega

/-! ## Basic facts about the embedding -/

section basic
variable {W ι : Type}

theorem LogFile.Write_Fid (env : Logfile W ι) (w : W) (lf : LogFile ι) (e : LogEntry) :
    (LogFile.Write env w lf e).2.1.Fid = lf.Fid := rfl

theorem LogFile.Close_Fid (env : Logfile W ι) (w : W) (lf : LogFile ι) :
    (LogFile.Close env w lf).2.1.Fid = lf.Fid := rfl

theorem LogFile.Sync_Fid (env : Logfile W ι) (w : W) (lf : LogFile ι) :
    (LogFile.Sync env w lf).2.1.Fid = lf.Fid := rfl

theorem OpenLogFile_Fid (env : Logfile W ι) (w w1 : W) (path : String) (fid : Nat) (fsize : Int)
    (ftype : FileType) (ioType : IoType) (lf : LogFile ι)
    (h : OpenLogFile env w path fid fsize ftype ioType = (w1, .ok lf)) : lf.Fid = fid := by
  unfold OpenLogFile at h
  split at h
  · simp only [Prod.mk.injEq, Except.ok.injEq] at h
    rw [← h.2]
  · simp at h

theorem LogFile.Write_WriteAt (env : Logfile W ι) (hadv : AppendAdvances env) (w : W)
    (lf : LogFile ι) (e : LogEntry) (h : (LogFile.Write env w lf e).2.2 = none) :
    (LogFile.Write env w lf e).2.1.WriteAt = lf.WriteAt + (env.Size e : Int) :=
  hadv w lf e h

theorem LogFile.Write_WriteAt64 (env : Logfile W ι) (hadv : AppendAdvances64 env) (w : W)
    (lf : LogFile ι) (e : LogEntry) (h : (LogFile.Write env w lf e).2.2 = none) :
    (LogFile.Write env w lf e).2.1.WriteAt = wrapInt64 (lf.WriteAt + (env.Size e : Int)) :=
  hadv w lf e h

/-- An append that advances the cursor by exactly the entry size advances it
by that size in `int64`. -/
theorem AppendAdvances.to64 (env : Logfile W ι) (hadv : AppendAdvances env) :
    AppendAdvances64 env := by
  intro w lf e h
  have h1 := hadv w lf e h
  have h2 := (env.append w lf e).2.1.1.inRange
  rw [← h1]
  exact (wrapInt64_of_inRange _ h2).symm

/-- A successful `appendActive` is a successful append to the active segment;
the position is made from its id and its cursor after the append. -/
theorem appendActive_ok_inv (env : Logfile W ι) (w w1 : W) (vlog vlog1 : ValueLog ι)
    (active : LogFile ι) (e : LogEntry) (p : ValuePos)
    (h : appendActive env w vlog active e = (w1, vlog1, .ok p)) :
    w1 = (LogFile.Write env w active e).1 ∧
    (LogFile.Write env w active e).2.2 = none ∧
    vlog1 = { vlog with activeLogFile := some (LogFile.Write env w active e).2.1 } ∧
    p = { fid := active.Fid,
          offset := wrapInt64 ((LogFile.Write env w active e).2.1.WriteAt
            - wrapInt64 (env.Size e : Int)),
          size := toUint32 (wrapInt64 (env.Size e : Int)) } := by
  unfold appendActive at h
  rcases hw : LogFile.Write env w active e with ⟨w2, a2, _ | err⟩
  · rw [hw] at h
    simp only [Prod.mk.injEq, Result.ok.injEq] at h
    obtain ⟨h1, h2, h3⟩ := h
    have hf : a2.Fid = active.Fid := by
      have := LogFile.Write_Fid env w active e
      rw [hw] at this; exact this
    subst h1 h2 h3
    simp [hf]
  · rw [hw] at h
    simp at h

/-- Whatever `appendActive` returns, the catalogue is the one it was given and
the active segment keeps its id. -/
theorem appendActive_state (env : Logfile W ι) (w : W) (vlog : ValueLog ι)
    (active : LogFile ι) (e : LogEntry) :
    (appendActive env w vlog active e).2.1 =
      { vlog with activeLogFile := some (LogFile.Write env w active e).2.1 } := by
  unfold appendActive
  rcases hw : LogFile.Write env w active e with ⟨w2, a2, _ | err⟩ <;> rfl

/-- Below the threshold `Write` is the append alone. -/
theorem Write_below (env : Logfile W ι) (w : W) (vlog : ValueLog ι) (active : LogFile ι)
    (e : LogEntry) (hactive : vlog.activeLogFile = some active)
    (hlt : wrapInt64 (active.WriteAt + wrapInt64 (env.Size e : Int)) < vlog.opt.blockSize) :
    Write env w vlog e = appendActive env w vlog active e := by
  unfold Write
  simp only [hactive]
  rw [if_neg (not_le.mpr hlt)]

/-- At the threshold, when closing fails, `Write` returns that error. -/
theorem Write_close_fails (env : Logfile W ι) (w : W) (vlog : ValueLog ι) (active : LogFile ι)
    (e : LogEntry) (err : ExtErr) (hactive : vlog.activeLogFile = some active)
    (hge : vlog.opt.blockSize ≤ wrapInt64 (active.WriteAt + wrapInt64 (env.Size e : Int)))
    (hclose : (LogFile.Close env w active).2.2 = some err) :
    Write env w vlog e =
      ((LogFile.Close env w active).1,
        { vlog with activeLogFile := some (LogFile.Close env w active).2.1 },
        .error (.ext err)) := by
  unfold Write
  simp only [hactive]
  rw [if_pos hge]
  rcases hc : LogFile.Close env w active with ⟨w1, closed, _ | err1⟩
  · rw [hc] at hclose; simp at hclose
  · rw [hc] at hclose
    simp only [Option.some.injEq] at hclose
    simp [hclose]

/-- At the threshold, when closing succeeds and creating fails, `Write`
returns the error and leaves the state of the middle of the rotation. -/
theorem Write_create_fails (env : Logfile W ι) (w w2 : W) (vlog : ValueLog ι)
    (active : LogFile ι) (e : LogEntry) (err : ExtErr)
    (hactive : vlog.activeLogFile = some active)
    (hge : vlog.opt.blockSize ≤ wrapInt64 (active.WriteAt + wrapInt64 (env.Size e : Int)))
    (hclose : (LogFile.Close env w active).2.2 = none)
    (hcreate : createLogFile env (LogFile.Close env w active).1 vlog
      (LogFile.Close env w active).2.1 = (w2, .error err)) :
    Write env w vlog e =
      (w2, midRotation vlog (LogFile.Close env w active).2.1, .error (.ext err)) := by
  unfold Write
  simp only [hactive]
  rw [if_pos hge]
  rcases hc : LogFile.Close env w active with ⟨w1, closed, _ | err1⟩
  · rw [hc] at hcreate
    simp only at hcreate ⊢
    have hcreate1 : createLogFile env w1
        { vlog with activeLogFile := some closed,
                    logFiles := Function.update vlog.logFiles closed.Fid (some closed) } closed
        = (w2, .error err) := hcreate
    rw [hcreate1]
    rfl
  · rw [hc] at hclose; simp at hclose

/-- At the threshold, when closing and creating succeed, `Write` is the append
to the created segment, the closed one being catalogued. -/
theorem Write_rotates (env : Logfile W ι) (w w2 : W) (vlog : ValueLog ι)
    (active lf : LogFile ι) (e : LogEntry)
    (hactive : vlog.activeLogFile = some active)
    (hge : vlog.opt.blockSize ≤ wrapInt64 (active.WriteAt + wrapInt64 (env.Size e : Int)))
    (hclose : (LogFile.Close env w active).2.2 = none)
    (hcreate : createLogFile env (LogFile.Close env w active).1 vlog
      (LogFile.Close env w active).2.1 = (w2, .ok lf)) :
    Write env w vlog e =
      appendActive env w2
        { midRotation vlog (LogFile.Close env w active).2.1 with activeLogFile := some lf }
        lf e := by
  unfold Write
  simp only [hactive]
  rw [if_pos hge]
  rcases hc : LogFile.Close env w active with ⟨w1, closed, _ | err1⟩
  · rw [hc] at hcreate
    simp only at hcreate ⊢
    have hcreate1 : createLogFile env w1
        { vlog with activeLogFile := some closed,
                    logFiles := Function.update vlog.logFiles closed.Fid (some closed) } closed
        = (w2, .ok lf) := hcreate
    rw [hcreate1]
    rfl
  · rw [hc] at hclose; simp at hclose

theorem createLogFile_Fid (env : Logfile W ι) (w w2 : W) (vlog : ValueLog ι)
    (active lf : LogFile ι) (h : createLogFile env w vlog active = (w2, .ok lf)) :
    lf.Fid = (active.Fid + 1) % 4294967296 :=
  OpenLogFile_Fid env w w2 _ _ _ _ _ lf h

end basic
/-! ## Single calls -/

section roundtrip
variable {W ι : Type}

/-- A successful `Write` leaves an active segment, and the position is made
from that segment's id, its cursor and the entry size. -/
theorem Write_ok_inv (env : Logfile W ι) (w w1 : W) (vlog vlog1 : ValueLog ι)
    (e : LogEntry) (p : ValuePos) (h : Write env w vlog e = (w1, vlog1, .ok p)) :
    ∃ a1, vlog1.activeLogFile = some a1 ∧
      p = { fid := a1.Fid, offset := wrapInt64 (a1.WriteAt - wrapInt64 (env.Size e : Int)),
            size := toUint32 (wrapInt64 (env.Size e : Int)) } := by
  cases hactive : vlog.activeLogFile with
  | none => simp [Write, hactive] at h
  | some active =>
    by_cases hlt : wrapInt64 (active.WriteAt + wrapInt64 (env.Size e : Int))
        < vlog.opt.blockSize
    · rw [Write_below env w vlog active e hactive hlt] at h
      obtain ⟨-, -, hv, hp⟩ := appendActive_ok_inv env w w1 vlog vlog1 active e p h
      exact ⟨_, by rw [hv], by rw [hp]; rfl⟩
    · have hge := not_lt.mp hlt
      cases hclose : (LogFile.Close env w active).2.2 with
      | some err =>
        rw [Write_close_fails env w vlog active e err hactive hge hclose] at h
        simp at h
      | none =>
        rcases hcreate : createLogFile env (LogFile.Close env w active).1 vlog
          (LogFile.Close env w active).2.1 with ⟨w2, err | lf⟩
        · rw [Write_create_fails env w w2 vlog active e err hactive hge hclose hcreate] at h
          simp at h
        · rw [Write_rotates env w w2 vlog active lf e hactive hge hclose hcreate] at h
          obtain ⟨-, -, hv, hp⟩ := appendActive_ok_inv env w2 w1 _ vlog1 lf e p h
          exact ⟨_, by rw [hv], by rw [hp]; rfl⟩

/-- C1: an entry whose `ExpiredAt` is 0 is written successfully and
the segment returns it at the position, yet `ReadValue` of that position
yields the nil slice: the expiry test `ExpiredAt <= now` takes 0 for a time
that has passed. -/
theorem ReadValue_after_Write_zero_expiry (env : Logfile W ι) (now : Int) (w w1 : W)
    (vlog vlog1 : ValueLog ι) (e : LogEntry) (p : ValuePos)
    (hexp : e.ExpiredAt = 0)
    (hwrite : Write env w vlog e = (w1, vlog1, .ok p))
    (hread : ∀ active, vlog1.activeLogFile = some active →
      (LogFile.Read env w1 active p.offset).2 = .ok e) :
    (ReadValue env now w1 vlog1 (some p)).2.2 = .ok none := by
  obtain ⟨a1, ha1, hp⟩ := Write_ok_inv env w w1 vlog vlog1 e p hwrite
  have hfid : p.fid = a1.Fid := by rw [hp]
  have hr := hread a1 ha1
  rcases hread1 : LogFile.Read env w1 a1 p.offset with ⟨w2, r⟩
  rw [hread1] at hr
  simp only at hr
  subst hr
  simp [ReadValue, ha1, selectLogFile, hfid, hread1, hexp]

theorem ReadValue_after_Write_zero_expiry_witness :
    entryKV.ExpiredAt = 0 ∧ entryKV.Value = some [118] ∧
    Write memEnv disk0 vlog0 entryKV =
      ((Write memEnv disk0 vlog0 entryKV).1, (Write memEnv disk0 vlog0 entryKV).2.1,
        .ok { fid := 0, offset := 0, size := 2 }) ∧
    (ReadValue memEnv 1700000000 (Write memEnv disk0 vlog0 entryKV).1
      (Write memEnv disk0 vlog0 entryKV).2.1 (some { fid := 0, offset := 0, size := 2 })).2.2
      = .ok none :=
  ⟨rfl, rfl, rfl,
    ReadValue_after_Write_zero_expiry memEnv 1700000000 disk0 _ vlog0 _ entryKV
      { fid := 0, offset := 0, size := 2 } rfl rfl
      (fun active h => by
        have h1 : active = { Fid := 0, WriteAt := 2, IoSelector := some () } :=
          (Option.some.inj h).symm
        subst h1
        rfl)⟩

/-- The part of the round trip that the code fulfils: an entry that expires
after `now` is read back with its value. -/
theorem ReadValue_after_Write_future_expiry (env : Logfile W ι) (now : Int) (w w1 : W)
    (vlog vlog1 : ValueLog ι) (e : LogEntry) (p : ValuePos)
    (hexp : toUint64 now < e.ExpiredAt)
    (hwrite : Write env w vlog e = (w1, vlog1, .ok p))
    (hread : ∀ active, vlog1.activeLogFile = some active →
      (LogFile.Read env w1 active p.offset).2 = .ok e) :
    (ReadValue env now w1 vlog1 (some p)).2.2 = .ok e.Value := by
  obtain ⟨a1, ha1, hp⟩ := Write_ok_inv env w w1 vlog vlog1 e p hwrite
  have hfid : p.fid = a1.Fid := by rw [hp]
  have hr := hread a1 ha1
  rcases hread1 : LogFile.Read env w1 a1 p.offset with ⟨w2, r⟩
  rw [hread1] at hr
  simp only at hr
  subst hr
  simp [ReadValue, ha1, selectLogFile, hfid, hread1, not_le.mpr hexp]

end roundtrip

section opening
variable {W ι : Type}

/-- A position whose fid is neither the active id nor a catalogue key makes
`ReadValue` return the error at once. -/
theorem ReadValue_of_unknown (env : Logfile W ι) (now : Int) (w : W) (vlog : ValueLog ι)
    (active : LogFile ι) (pos : ValuePos) (hactive : vlog.activeLogFile = some active)
    (h1 : pos.fid ≠ active.Fid) (h2 : vlog.logFiles pos.fid = none) :
    ReadValue env now w vlog (some pos) = (w, vlog, .error (.ErrLogFileNil pos.fid)) := by
  simp [ReadValue, hactive, selectLogFile, h1, h2]

/-- The error "log file n not exists" comes from no other place of
`ReadValue`. -/
theorem ReadValue_ErrLogFileNil_inv (env : Logfile W ι) (now : Int) (w : W) (vlog : ValueLog ι)
    (active : LogFile ι) (pos : ValuePos) (n : Nat) (hactive : vlog.activeLogFile = some active)
    (h : (ReadValue env now w vlog (some pos)).2.2 = .error (.ErrLogFileNil n)) :
    n = pos.fid ∧ pos.fid ≠ active.Fid ∧ vlog.logFiles pos.fid = none := by
  by_cases hfid : pos.fid = active.Fid
  · exfalso
    rcases hr : LogFile.Read env w active pos.offset with ⟨w2, err | entry⟩
    · simp [ReadValue, hactive, selectLogFile, hfid, hr] at h
    · by_cases hx : entry.ExpiredAt ≤ toUint64 now
      · simp [ReadValue, hactive, selectLogFile, hfid, hr, hx] at h
      · simp [ReadValue, hactive, selectLogFile, hfid, hr, hx] at h
  · cases hcat : vlog.logFiles pos.fid with
    | none =>
      rw [ReadValue_of_unknown env now w vlog active pos hactive hfid hcat] at h
      simp only [Result.error.injEq, Error.ErrLogFileNil.injEq] at h
      exact ⟨h.symm, hfid, rfl⟩
    | some logFile =>
      exfalso
      by_cases hsel : logFile.IoSelector.isNone = true
      · rcases ho : OpenLogFile env w vlog.opt.path pos.fid vlog.opt.blockSize
          FileType.ValueLog vlog.opt.ioType with ⟨w1, err | lf⟩
        · simp [ReadValue, hactive, selectLogFile, hfid, hcat, hsel, ho] at h
        · rcases hr : LogFile.Read env w1 lf pos.offset with ⟨w2, err | entry⟩
          · simp [ReadValue, hactive, selectLogFile, hfid, hcat, hsel, ho, hr] at h
          · by_cases hx : entry.ExpiredAt ≤ toUint64 now
            · simp [ReadValue, hactive, selectLogFile, hfid, hcat, hsel, ho, hr, hx] at h
            · simp [ReadValue, hactive, selectLogFile, hfid, hcat, hsel, ho, hr, hx] at h
      · rcases hr : LogFile.Read env w logFile pos.offset with ⟨w2, err | entry⟩
        · simp [ReadValue, hactive, selectLogFile, hfid, hcat, hsel, hr] at h
        · by_cases hx : entry.ExpiredAt ≤ toUint64 now
          · simp [ReadValue, hactive, selectLogFile, hfid, hcat, hsel, hr, hx] at h
          · simp [ReadValue, hactive, selectLogFile, hfid, hcat, hsel, hr, hx] at h

/-- C5: with an active segment present, `ReadValue` of a non-nil
position returns the error "log file n not exists" exactly when `n` is the
position's fid and that fid is neither the id of the active segment nor a key
of the catalogue; in that case the call returns at once, with the world and
the log as they were, whatever the collaborator is: no segment is opened or
read. -/
theorem ReadValue_unknown_segment (env : Logfile W ι) (now : Int) (w : W) (vlog : ValueLog ι)
    (active : LogFile ι) (pos : ValuePos) (hactive : vlog.activeLogFile = some active) :
    (∀ n, (ReadValue env now w vlog (some pos)).2.2 = .error (.ErrLogFileNil n) ↔
      (n = pos.fid ∧ pos.fid ≠ active.Fid ∧ vlog.logFiles pos.fid = none)) ∧
    ((pos.fid ≠ active.Fid ∧ vlog.logFiles pos.fid = none) →
      ReadValue env now w vlog (some pos) = (w, vlog, .error (.ErrLogFileNil pos.fid))) := by
  refine ⟨fun n => ⟨ReadValue_ErrLogFileNil_inv env now w vlog active pos n hactive, ?_⟩, ?_⟩
  · rintro ⟨hn, h1, h2⟩
    rw [ReadValue_of_unknown env now w vlog active pos hactive h1 h2, hn]
  · rintro ⟨h1, h2⟩
    exact ReadValue_of_unknown env now w vlog active pos hactive h1 h2

theorem ReadValue_unknown_segment_witness :
    vlog0.activeLogFile = some { Fid := 0, WriteAt := 0, IoSelector := some () } ∧
    ReadValue memEnv 1700000000 disk0 vlog0 (some { fid := 7, offset := 0, size := 2 })
      = (disk0, vlog0, .error (.ErrLogFileNil 7)) :=
  ⟨rfl, (ReadValue_unknown_segment memEnv 1700000000 disk0 vlog0
      { Fid := 0, WriteAt := 0, IoSelector := some () } { fid := 7, offset := 0, size := 2 } rfl).2
      ⟨by decide, rfl⟩⟩

/-- When no name of the list contains the suffix the loop adds no id. -/
theorem collectFids_no_match (suffix : String) (names : List String) (acc : List Nat)
    (h : ∀ name ∈ names, stringsContains name.toList suffix.toList = false) :
    collectFids suffix names acc = .ok acc := by
  induction names generalizing acc with
  | nil => rfl
  | cons name rest ih =>
    have h1 := h name (List.mem_cons_self _ _)
    simp only [collectFids, h1]
    exact ih acc (fun n hn => h n (List.mem_cons_of_mem _ hn))

/-- C7: on a directory listing in which no name contains the
value-log suffix (the empty listing included), `OpenValueLog` returns neither
an error nor a log: indexing the empty list of ids panics. -/
theorem OpenValueLog_without_segments (env : Logfile W ι) (w w1 : W) (path : String)
    (blockSize : Int) (ioType : IoType) (names : List String)
    (hdir : env.ReadDir w path = (w1, .ok names))
    (hnone : ∀ name ∈ names, stringsContains name.toList env.VLogSuffixName.toList = false) :
    OpenValueLog env w path blockSize ioType = (w1, .panicked .indexOutOfRange) := by
  unfold OpenValueLog
  simp only [hdir, collectFids_no_match env.VLogSuffixName names [] hnone]
  rfl

theorem OpenValueLog_without_segments_witness :
    memEnv.ReadDir diskEmpty "db" = (diskEmpty, .ok ["README.md"]) ∧
    OpenValueLog memEnv diskEmpty "db" 1024 0 = (diskEmpty, .panicked .indexOutOfRange) :=
  ⟨rfl, OpenValueLog_without_segments memEnv diskEmpty diskEmpty "db" 1024 0 ["README.md"] rfl
    (by decide)⟩

/-- C6: the file name `-1.vlog` matches the suffix and the text before
its dot, `-1`, is no non-negative integer, yet `strconv.Atoi` accepts it and
`OpenValueLog` returns a log whose active segment has id
`uint32(-1) = 4294967295`.  Likewise the name `4294967296.vlog` yields the
id 0, which is not the number written in the name. -/
theorem OpenValueLog_accepts_negative_id :
    stringsContains "-1.vlog".toList memEnv.VLogSuffixName.toList = true ∧
    splitNames0 "-1.vlog".toList = "-1".toList ∧
    Atoi "-1".toList = .ok (-1) ∧
    collectFids memEnv.VLogSuffixName ["4294967296.vlog"] [] = .ok [0] ∧
    OpenValueLog memEnv diskNeg "db" 1024 0 =
      (diskNeg, .ok { opt := { path := "db", blockSize := 1024, ioType := 0 },
                      activeLogFile := some { Fid := 4294967295, WriteAt := 0,
                                              IoSelector := some () },
                      logFiles := fun _ => none }) :=
  ⟨by decide, by decide, by decide, by decide, rfl⟩

end opening

section position
variable {W ι : Type}

theorem memEnv_AppendAdvances : AppendAdvances memEnv := by
  intro w lf e h
  have hr := lf.WriteAt.inRange
  simp only [memEnv] at h ⊢
  split at h
  · rename_i hlt
    simp only [hlt, if_true, I64.wrap, wrapInt64]
    omega
  · simp at h

theorem memEnv_AppendAdvances64 : AppendAdvances64 memEnv :=
  AppendAdvances.to64 memEnv memEnv_AppendAdvances

theorem memEnvWrap_AppendAdvances64 : AppendAdvances64 memEnvWrap := fun _ _ _ _ => rfl

/-- C2 (counterexample): first, on the log opened on segment
`4294967295` with block size 2, writing an entry of size 2 rotates, closing
and creating succeed, and the new active segment has id 0, not
`4294967295 + 1`.  Second, on a log whose cursor is `2 ^ 63 - 1`, with block
size 1024, the sum of cursor and size 2 exceeds the block size, yet the
`int64` sum is negative and `Write` does not rotate: the entry is appended to
segment 0, which stays active and is not catalogued. -/
theorem Write_rotation_from_last_id :
    (OpenValueLog memEnv diskMax "db" 2 0 = (diskMax, .ok vlogMax) ∧
      vlogMax.activeLogFile = some { Fid := 4294967295, WriteAt := 0, IoSelector := some () } ∧
      (0 : Int) + (memEnv.Size entryKV : Int) ≥ vlogMax.opt.blockSize ∧
      (LogFile.Close memEnv diskMax
        { Fid := 4294967295, WriteAt := 0, IoSelector := some () }).2.2 = none ∧
      (createLogFile memEnv diskMax vlogMax
        { Fid := 4294967295, WriteAt := 0, IoSelector := some () }).2
        = .ok { Fid := 0, WriteAt := 0, IoSelector := some () } ∧
      (Write memEnv diskMax vlogMax entryKV).2.2 = .ok { fid := 0, offset := 0, size := 2 } ∧
      (Write memEnv diskMax vlogMax entryKV).2.1.activeLogFile.map (fun lf => lf.Fid) = some 0 ∧
      (0 : Nat) ≠ 4294967295 + 1) ∧
    (vlogEdge.activeLogFile
        = some { Fid := 0, WriteAt := 9223372036854775807, IoSelector := some () } ∧
      (9223372036854775807 : Int) + (memEnvWrap.Size entryKV : Int) ≥ vlogEdge.opt.blockSize ∧
      (Write memEnvWrap disk0 vlogEdge entryKV).2.2
        = .ok { fid := 0, offset := 9223372036854775807, size := 2 } ∧
      (Write memEnvWrap disk0 vlogEdge entryKV).2.1.activeLogFile.map (fun lf => lf.Fid)
        = some 0 ∧
      (Write memEnvWrap disk0 vlogEdge entryKV).2.1.logFiles 0 = none) :=
  ⟨⟨rfl, rfl, by decide, rfl, by decide, by decide, by decide, by decide⟩,
    ⟨rfl, by decide, by decide, by decide, by decide⟩⟩

/-- C2 (amended): `Write` rotates exactly when
`activeLogFile.WriteAt + e.Size() >= blockSize`, the sum being taken in
`int64` (it is the exact sum unless that leaves `[-2 ^ 63, 2 ^ 63)`).  Below
the threshold the call is the append alone: the catalogue and the id of the
active segment are unchanged.  At the threshold the active segment is closed
(a failure of the close is the result of the call); when closing and creating
succeed, the closed segment is in the catalogue under its own id, the other
catalogue entries are unchanged, and the new active segment has id
`(old id + 1) mod 2 ^ 32`, which is `old id + 1` unless the old id is
`2 ^ 32 - 1`. -/
theorem Write_rotation_rule (env : Logfile W ι) (w : W) (vlog : ValueLog ι)
    (active : LogFile ι) (e : LogEntry) (hactive : vlog.activeLogFile = some active) :
    (wrapInt64 (active.WriteAt + wrapInt64 (env.Size e : Int)) < vlog.opt.blockSize →
      Write env w vlog e = appendActive env w vlog active e ∧
      (Write env w vlog e).2.1.logFiles = vlog.logFiles ∧
      (Write env w vlog e).2.1.activeLogFile.map (fun lf => lf.Fid) = some active.Fid) ∧
    (wrapInt64 (active.WriteAt + wrapInt64 (env.Size e : Int)) ≥ vlog.opt.blockSize →
      (∀ err, (LogFile.Close env w active).2.2 = some err →
        (Write env w vlog e).2.2 = .error (.ext err)) ∧
      ((LogFile.Close env w active).2.2 = none →
        ∀ w2 lf, createLogFile env (LogFile.Close env w active).1 vlog
            (LogFile.Close env w active).2.1 = (w2, .ok lf) →
          (Write env w vlog e).2.1.logFiles active.Fid = some (LogFile.Close env w active).2.1 ∧
          (LogFile.Close env w active).2.1.Fid = active.Fid ∧
          (∀ k, k ≠ active.Fid → (Write env w vlog e).2.1.logFiles k = vlog.logFiles k) ∧
          (Write env w vlog e).2.1.activeLogFile.map (fun lf => lf.Fid)
            = some ((active.Fid + 1) % 4294967296) ∧
          (active.Fid + 1 < 4294967296 →
            (Write env w vlog e).2.1.activeLogFile.map (fun lf => lf.Fid)
              = some (active.Fid + 1)))) ∧
    (active.WriteAt + (env.Size e : Int) < 9223372036854775808 →
      wrapInt64 (active.WriteAt + wrapInt64 (env.Size e : Int))
        = active.WriteAt + (env.Size e : Int)) := by
  refine ⟨fun hlt => ?_, fun hge => ⟨fun err hclose => ?_, fun hclose w2 lf hcreate => ?_⟩,
    fun hfit => ?_⟩
  · have hw := Write_below env w vlog active e hactive hlt
    refine ⟨hw, ?_, ?_⟩
    · rw [hw, appendActive_state]
    · rw [hw, appendActive_state]
      rfl
  · rw [Write_close_fails env w vlog active e err hactive hge hclose]
  · have hw := Write_rotates env w w2 vlog active lf e hactive hge hclose hcreate
    have hfid := createLogFile_Fid env _ w2 vlog _ lf hcreate
    have hcf : (LogFile.Close env w active).2.1.Fid = active.Fid := rfl
    rw [hcf] at hfid
    have hact : (Write env w vlog e).2.1.activeLogFile.map (fun lf => lf.Fid)
        = some ((active.Fid + 1) % 4294967296) := by
      rw [hw, appendActive_state]
      simp only [Option.map_some', LogFile.Write_Fid, hfid]
    refine ⟨?_, rfl, fun k hk => ?_, hact, fun hsmall => ?_⟩
    · rw [hw, appendActive_state]
      simp [midRotation, hcf]
    · rw [hw, appendActive_state]
      simp [midRotation, hcf, hk]
    · rw [hact, Nat.mod_eq_of_lt hsmall]
  · have hr := active.WriteAt.inRange
    rw [wrapInt64_add_wrapInt64]
    exact wrapInt64_of_inRange _ ⟨by omega, hfit⟩

theorem Write_rotation_rule_witness :
    vlog0.activeLogFile = some { Fid := 0, WriteAt := 0, IoSelector := some () } ∧
    (wrapInt64 ((0 : Int) + wrapInt64 (memEnv.Size entryKV : Int)) < vlog0.opt.blockSize) ∧
    (Write memEnv disk0 vlog0 entryKV).2.1.logFiles = vlog0.logFiles ∧
    (Write memEnv disk0 vlog0 entryKV).2.1.activeLogFile.map (fun lf => lf.Fid) = some 0 ∧
    vlogSmall.activeLogFile = some { Fid := 0, WriteAt := 0, IoSelector := some () } ∧
    (wrapInt64 ((0 : Int) + wrapInt64 (memEnv.Size entryKV : Int)) ≥ vlogSmall.opt.blockSize) ∧
    (Write memEnv disk0 vlogSmall entryKV).2.1.logFiles 0
      = some { Fid := 0, WriteAt := 0, IoSelector := some () } ∧
    (Write memEnv disk0 vlogSmall entryKV).2.1.activeLogFile.map (fun lf => lf.Fid) = some 1 :=
  ⟨rfl, by decide,
    ((Write_rotation_rule memEnv disk0 vlog0 { Fid := 0, WriteAt := 0, IoSelector := some () }
      entryKV rfl).1 (by decide)).2.1,
    ((Write_rotation_rule memEnv disk0 vlog0 { Fid := 0, WriteAt := 0, IoSelector := some () }
      entryKV rfl).1 (by decide)).2.2,
    rfl, by decide,
    ((((Write_rotation_rule memEnv disk0 vlogSmall
      { Fid := 0, WriteAt := 0, IoSelector := some () } entryKV rfl).2.1 (by decide)).2 rfl)
      disk0 { Fid := 1, WriteAt := 0, IoSelector := some () } rfl).1,
    ((((Write_rotation_rule memEnv disk0 vlogSmall
      { Fid := 0, WriteAt := 0, IoSelector := some () } entryKV rfl).2.1 (by decide)).2 rfl)
      disk0 { Fid := 1, WriteAt := 0, IoSelector := some () } rfl).2.2.2.2 (by decide)⟩

theorem memSize_entryOfValueLen (n : Nat) : memSize (entryOfValueLen n) = n + 1 := by
  simp [memSize, entryOfValueLen, Bytes.len, Nat.add_comm]

theorem memSize_entryHuge : memSize entryHuge = 4294967297 :=
  memSize_entryOfValueLen 4294967296

/-- When the append succeeds, `appendActive` returns the position made from
the id of the segment and its cursor after the append. -/
theorem appendActive_result (env : Logfile W ι) (w : W) (vlog : ValueLog ι)
    (active : LogFile ι) (e : LogEntry) (hok : (LogFile.Write env w active e).2.2 = none) :
    (appendActive env w vlog active e).2.2 =
      .ok { fid := active.Fid,
            offset := wrapInt64 ((LogFile.Write env w active e).2.1.WriteAt
              - wrapInt64 (env.Size e : Int)),
            size := toUint32 (wrapInt64 (env.Size e : Int)) } := by
  unfold appendActive
  rcases hw : LogFile.Write env w active e with ⟨w2, a2, _ | err⟩
  · have hf : a2.Fid = active.Fid := by
      have := LogFile.Write_Fid env w active e
      rw [hw] at this; exact this
    simp [hf]
  · rw [hw] at hok
    simp at hok

/-- The in-memory collaborator appends when the new cursor fits `int64`. -/
theorem memEnv_append_fits (d : Disk) (lf : LogFile Unit) (e : LogEntry)
    (h : lf.WriteAt + (memSize e : Int) < 9223372036854775808) :
    memEnv.append d lf e
      = ({ d with records := d.records ++ [(lf.Fid, lf.WriteAt.val, e)] },
          (I64.wrap (lf.WriteAt + (memSize e : Int)), lf.IoSelector), none) :=
  if_pos h

/-- The result of writing `entryHuge` to the log `vlogWide`. -/
theorem Write_entryHuge :
    (Write memEnv disk0 vlogWide entryHuge).2.2 = .ok { fid := 0, offset := 0, size := 1 } := by
  have hs : memEnv.Size entryHuge = 4294967297 := memSize_entryHuge
  have hlt : wrapInt64 (((0 : I64) : Int) + wrapInt64 (memEnv.Size entryHuge : Int))
      < vlogWide.opt.blockSize := by
    rw [hs]; decide
  rw [Write_below memEnv disk0 vlogWide { Fid := 0, WriteAt := 0, IoSelector := some () }
    entryHuge rfl hlt]
  have hfit : ((0 : I64) : Int) + (memSize entryHuge : Int) < 9223372036854775808 := by
    rw [memSize_entryHuge]; decide
  have happ := memEnv_append_fits disk0 { Fid := 0, WriteAt := 0, IoSelector := some () }
    entryHuge hfit
  have hok : (LogFile.Write memEnv disk0 { Fid := 0, WriteAt := 0, IoSelector := some () }
      entryHuge).2.2 = none := by
    simp only [LogFile.Write, happ]
  have hcur : (LogFile.Write memEnv disk0 { Fid := 0, WriteAt := 0, IoSelector := some () }
      entryHuge).2.1.WriteAt = I64.wrap (((0 : I64) : Int) + (memSize entryHuge : Int)) := by
    simp only [LogFile.Write, happ, LogFile.after]
  rw [appendActive_result memEnv disk0 vlogWide _ entryHuge hok, hcur, hs, memSize_entryHuge]
  decide

/-- C3 (counterexample): first, an entry of `2 ^ 32 + 1` bytes is
written successfully and the position carries size 1, not the size of the
entry.  Second, on a log whose cursor is `2 ^ 63 - 1`, an append advancing
the cursor by 2 in `int64` leaves the cursor `-2 ^ 63 + 1`, and the offset
returned is `2 ^ 63 - 1`, not the integer difference `-2 ^ 63 - 1`.  Third,
a rotation from segment `4294967295` onto the existing segment `0`, which
holds 100 bytes, returns offset 100 on the segment just rotated to. -/
theorem Write_size_truncated :
    (memEnv.Size entryHuge = 4294967297 ∧
      (Write memEnv disk0 vlogWide entryHuge).2.2 = .ok { fid := 0, offset := 0, size := 1 } ∧
      (1 : Nat) ≠ 4294967297) ∧
    (AppendAdvances64 memEnvWrap ∧
      (Write memEnvWrap disk0 vlogEdge entryKV).2.2
        = .ok { fid := 0, offset := 9223372036854775807, size := 2 } ∧
      (Write memEnvWrap disk0 vlogEdge entryKV).2.1.activeLogFile
        = some { Fid := 0, WriteAt := I64.wrap (-9223372036854775807), IoSelector := some () } ∧
      (-9223372036854775807 : Int) - (memEnvWrap.Size entryKV : Int) ≠ 9223372036854775807) ∧
    (OpenValueLog memEnv diskStale "db" 2 0 = (diskStale, .ok vlogStale) ∧
      (createLogFile memEnv diskStale vlogStale
        { Fid := 4294967295, WriteAt := 0, IoSelector := some () }).2
        = .ok { Fid := 0, WriteAt := 100, IoSelector := some () } ∧
      (Write memEnv diskStale vlogStale entryKV).2.2
        = .ok { fid := 0, offset := 100, size := 2 }) :=
  ⟨⟨memSize_entryHuge, Write_entryHuge, by decide⟩,
    ⟨memEnvWrap_AppendAdvances64, by decide, by decide, by decide⟩,
    ⟨rfl, by decide, by decide⟩⟩

/-- C3 (amended): a successful `Write(e)`, the collaborator's append
advancing the cursor by exactly `e.Size()` (in `int64`), returns a position
whose fid is the id of the active segment after the call, whose offset is
that segment's cursor after the append minus `e.Size()`, the difference being
taken in `int64` (it is the exact difference whenever that lies in
`[-2 ^ 63, 2 ^ 63)`), that is the cursor just before the append (the old
cursor when the call did not rotate, the cursor the created segment started
with when it did, hence 0 on a segment that starts at cursor 0), and whose
size is `e.Size() mod 2 ^ 32`, which is `e.Size()` whenever
`e.Size() < 2 ^ 32`. -/
theorem Write_position (env : Logfile W ι) (hadv : AppendAdvances64 env) (w w1 : W)
    (vlog vlog1 : ValueLog ι) (active : LogFile ι) (e : LogEntry) (p : ValuePos)
    (hactive : vlog.activeLogFile = some active)
    (hwrite : Write env w vlog e = (w1, vlog1, .ok p)) :
    ∃ a1, vlog1.activeLogFile = some a1 ∧
      p.fid = a1.Fid ∧
      p.offset = wrapInt64 (a1.WriteAt - wrapInt64 (env.Size e : Int)) ∧
      (-9223372036854775808 ≤ a1.WriteAt - (env.Size e : Int) →
        p.offset = a1.WriteAt - (env.Size e : Int)) ∧
      p.size = env.Size e % 4294967296 ∧
      (env.Size e < 4294967296 → p.size = env.Size e) ∧
      (wrapInt64 (active.WriteAt + wrapInt64 (env.Size e : Int)) < vlog.opt.blockSize →
        a1.Fid = active.Fid ∧ p.offset = active.WriteAt) ∧
      (wrapInt64 (active.WriteAt + wrapInt64 (env.Size e : Int)) ≥ vlog.opt.blockSize →
        ∀ w2 lf, createLogFile env (LogFile.Close env w active).1 vlog
            (LogFile.Close env w active).2.1 = (w2, .ok lf) →
          a1.Fid = lf.Fid ∧ p.offset = lf.WriteAt ∧
          ((lf.WriteAt : Int) = 0 → p.offset = 0)) := by
  obtain ⟨a1, ha1, hp⟩ := Write_ok_inv env w w1 vlog vlog1 e p hwrite
  have hsize : p.size = env.Size e % 4294967296 := by
    simp only [hp, toUint32_wrapInt64]
  have hoff : p.offset = wrapInt64 (a1.WriteAt - wrapInt64 (env.Size e : Int)) := by rw [hp]
  have hbefore : ∀ (lf : LogFile ι) (w0 : W), (LogFile.Write env w0 lf e).2.2 = none →
      wrapInt64 ((LogFile.Write env w0 lf e).2.1.WriteAt - wrapInt64 (env.Size e : Int))
        = lf.WriteAt := by
    intro lf w0 hok
    have hcur := LogFile.Write_WriteAt64 env hadv w0 lf e hok
    have hr := lf.WriteAt.inRange
    rw [hcur]
    unfold wrapInt64
    omega
  refine ⟨a1, ha1, by rw [hp], hoff, fun hlow => ?_, hsize, fun h => ?_, fun hlt => ?_,
    fun hge w2 lf hcreate => ?_⟩
  · have hr := a1.WriteAt.inRange
    rw [hoff, wrapInt64_sub_wrapInt64]
    exact wrapInt64_of_inRange _ ⟨hlow, by omega⟩
  · rw [hsize, Nat.mod_eq_of_lt h]
  · rw [Write_below env w vlog active e hactive hlt] at hwrite
    obtain ⟨-, hok, hv, hp1⟩ := appendActive_ok_inv env w w1 vlog vlog1 active e p hwrite
    rw [hv] at ha1
    simp only [Option.some.injEq] at ha1
    refine ⟨by rw [← ha1]; rfl, ?_⟩
    rw [hp1]
    exact hbefore active w hok
  · cases hclose : (LogFile.Close env w active).2.2 with
    | some err =>
      rw [Write_close_fails env w vlog active e err hactive hge hclose] at hwrite
      simp at hwrite
    | none =>
      rw [Write_rotates env w w2 vlog active lf e hactive hge hclose hcreate] at hwrite
      obtain ⟨-, hok, hv, hp1⟩ := appendActive_ok_inv env w2 w1 _ vlog1 lf e p hwrite
      rw [hv] at ha1
      simp only [Option.some.injEq] at ha1
      have hpo : p.offset = lf.WriteAt := by
        rw [hp1]
        exact hbefore lf w2 hok
      exact ⟨by rw [← ha1]; rfl, hpo, fun h0 => by rw [hpo, h0]⟩

theorem Write_position_witness :
    AppendAdvances64 memEnv ∧
    (vlog0.activeLogFile = some { Fid := 0, WriteAt := 0, IoSelector := some () } ∧
      (Write memEnv disk0 vlog0 entryKV).2.2 = .ok { fid := 0, offset := 0, size := 2 } ∧
      ∃ a1, (Write memEnv disk0 vlog0 entryKV).2.1.activeLogFile = some a1 ∧
        (0 : Nat) = a1.Fid ∧
        (0 : Int) = wrapInt64 (a1.WriteAt - wrapInt64 (memEnv.Size entryKV : Int)) ∧
        (2 : Nat) = memEnv.Size entryKV % 4294967296) ∧
    (vlogSmall.activeLogFile = some { Fid := 0, WriteAt := 0, IoSelector := some () } ∧
      wrapInt64 ((0 : Int) + wrapInt64 (memEnv.Size entryKV : Int)) ≥ vlogSmall.opt.blockSize ∧
      (createLogFile memEnv disk0 vlogSmall { Fid := 0, WriteAt := 0, IoSelector := some () })
        = (disk0, .ok { Fid := 1, WriteAt := 0, IoSelector := some () }) ∧
      (Write memEnv disk0 vlogSmall entryKV).2.2 = .ok { fid := 1, offset := 0, size := 2 } ∧
      ∃ a1, (Write memEnv disk0 vlogSmall entryKV).2.1.activeLogFile = some a1 ∧
        (1 : Nat) = a1.Fid ∧ a1.Fid = 1 ∧ (0 : Int) = 0) := by
  refine ⟨memEnv_AppendAdvances64, ⟨rfl, by decide, ?_⟩, ⟨rfl, by decide, rfl, by decide, ?_⟩⟩
  · obtain ⟨a1, h1, h2, h3, -, h5, -⟩ := Write_position memEnv memEnv_AppendAdvances64 disk0
      (Write memEnv disk0 vlog0 entryKV).1 vlog0 (Write memEnv disk0 vlog0 entryKV).2.1
      { Fid := 0, WriteAt := 0, IoSelector := some () } entryKV
      { fid := 0, offset := 0, size := 2 } rfl rfl
    exact ⟨a1, h1, h2, h3, h5⟩
  · obtain ⟨a1, h1, h2, -, -, -, -, -, h8⟩ := Write_position memEnv memEnv_AppendAdvances64 disk0
      (Write memEnv disk0 vlogSmall entryKV).1 vlogSmall (Write memEnv disk0 vlogSmall entryKV).2.1
      { Fid := 0, WriteAt := 0, IoSelector := some () } entryKV
      { fid := 1, offset := 0, size := 2 } rfl rfl
    obtain ⟨h9, h10, h11⟩ := h8 (by decide) disk0
      { Fid := 1, WriteAt := 0, IoSelector := some () } rfl
    exact ⟨a1, h1, h2, h9, h11 rfl⟩

end position
/-! ## Sequences of writes -/

section sequences
variable {W ι : Type}

/-- What a successful `Write` does to the log: the entry is appended to a
segment `lf0`, which becomes (with its new cursor) the active segment.
Either `lf0` is the former active segment and the catalogue is left alone, or
`lf0` has the next id (in `uint32`) and the former active segment has been
catalogued. -/
theorem Write_ok_step (env : Logfile W ι) (w w1 : W) (vlog vlog1 : ValueLog ι)
    (active : LogFile ι) (e : LogEntry) (p : ValuePos)
    (hactive : vlog.activeLogFile = some active)
    (hwrite : Write env w vlog e = (w1, vlog1, .ok p)) :
    ∃ a1 w0 lf0, vlog1.activeLogFile = some a1 ∧ vlog1.opt = vlog.opt ∧
      p = { fid := a1.Fid, offset := wrapInt64 (a1.WriteAt - wrapInt64 (env.Size e : Int)),
            size := toUint32 (wrapInt64 (env.Size e : Int)) } ∧
      (LogFile.Write env w0 lf0 e).2.2 = none ∧ a1 = (LogFile.Write env w0 lf0 e).2.1 ∧
      ((wrapInt64 (active.WriteAt + wrapInt64 (env.Size e : Int)) < vlog.opt.blockSize ∧
          lf0 = active ∧ vlog1.logFiles = vlog.logFiles) ∨
        (vlog.opt.blockSize ≤ wrapInt64 (active.WriteAt + wrapInt64 (env.Size e : Int)) ∧
          lf0.Fid = (active.Fid + 1) % 4294967296 ∧
          ∃ closed, vlog1.logFiles = Function.update vlog.logFiles active.Fid (some closed))) := by
  by_cases hlt : wrapInt64 (active.WriteAt + wrapInt64 (env.Size e : Int)) < vlog.opt.blockSize
  · rw [Write_below env w vlog active e hactive hlt] at hwrite
    obtain ⟨-, hok, hv, hp⟩ := appendActive_ok_inv env w w1 vlog vlog1 active e p hwrite
    refine ⟨(LogFile.Write env w active e).2.1, w, active, by rw [hv], by rw [hv],
      by rw [hp]; rfl, hok, rfl, ?_⟩
    exact Or.inl ⟨hlt, rfl, by rw [hv]⟩
  · have hge := not_lt.mp hlt
    cases hclose : (LogFile.Close env w active).2.2 with
    | some err =>
      rw [Write_close_fails env w vlog active e err hactive hge hclose] at hwrite
      simp at hwrite
    | none =>
      rcases hcreate : createLogFile env (LogFile.Close env w active).1 vlog
        (LogFile.Close env w active).2.1 with ⟨w2, err | lf⟩
      · rw [Write_create_fails env w w2 vlog active e err hactive hge hclose hcreate] at hwrite
        simp at hwrite
      · rw [Write_rotates env w w2 vlog active lf e hactive hge hclose hcreate] at hwrite
        obtain ⟨-, hok, hv, hp⟩ := appendActive_ok_inv env w2 w1 _ vlog1 lf e p hwrite
        have hfid := createLogFile_Fid env _ w2 vlog _ lf hcreate
        refine ⟨(LogFile.Write env w2 lf e).2.1, w2, lf, by rw [hv], by rw [hv]; rfl,
          by rw [hp]; rfl, hok, rfl, ?_⟩
        refine Or.inr ⟨hge, hfid, (LogFile.Close env w active).2.1, ?_⟩
        rw [hv]
        rfl

/-- In `int64`, the cursor after an append of `n` bytes minus `n` is the
cursor before it, whether the cursor advanced exactly or wrapped. -/
theorem offset_of_cursor (before after : I64) (n : Nat)
    (h : after.val = wrapInt64 (before.val + (n : Int))) :
    wrapInt64 (after.val - wrapInt64 (n : Int)) = before.val := by
  have h1 := before.inRange
  rw [h]
  unfold wrapInt64
  omega

theorem activeFid_eq (vlog : ValueLog ι) (active : LogFile ι)
    (h : vlog.activeLogFile = some active) : activeFid vlog = active.Fid := by
  simp [activeFid, h]

/-- Unfolding of `WriteAll` on a non-empty list. -/
theorem WriteAll_cons_inv (env : Logfile W ι) (w w2 : W) (vlog vlog2 : ValueLog ι)
    (e : LogEntry) (es : List LogEntry) (trace : List (ValuePos × ValueLog ι))
    (h : WriteAll env w vlog (e :: es) = some (w2, vlog2, trace)) :
    ∃ w1 vlog1 p rest, Write env w vlog e = (w1, vlog1, .ok p) ∧
      WriteAll env w1 vlog1 es = some (w2, vlog2, rest) ∧ trace = (p, vlog1) :: rest := by
  rcases hw : Write env w vlog e with ⟨w1, vlog1, p | err | pk⟩
  · rcases hr : WriteAll env w1 vlog1 es with _ | ⟨w3, vlog3, rest⟩
    · simp [WriteAll, hw, hr] at h
    · simp only [WriteAll, hw, hr, Option.some.injEq, Prod.mk.injEq] at h
      obtain ⟨h1, h2, h3⟩ := h
      subst h1 h2
      exact ⟨w1, vlog1, p, rest, rfl, hr, h3.symm⟩
  · simp [WriteAll, hw] at h
  · simp [WriteAll, hw] at h

theorem WriteAll_nil_inv (env : Logfile W ι) (w w2 : W) (vlog vlog2 : ValueLog ι)
    (trace : List (ValuePos × ValueLog ι))
    (h : WriteAll env w vlog [] = some (w2, vlog2, trace)) :
    w2 = w ∧ vlog2 = vlog ∧ trace = [] := by
  simp only [WriteAll, Option.some.injEq, Prod.mk.injEq] at h
  exact ⟨h.1.symm, h.2.1.symm, h.2.2.symm⟩

/-- Along a sequence of successful writes without wrap, every position
returned lies at or after the cursor of the segment that was active at the
start, or in a segment with a larger id. -/
theorem WriteAll_lower_bound (env : Logfile W ι) (hadv : AppendAdvances env)
    (es : List LogEntry) :
    ∀ (w w2 : W) (vlog vlog2 : ValueLog ι) (active : LogFile ι)
      (trace : List (ValuePos × ValueLog ι)),
      vlog.activeLogFile = some active →
      WriteAll env w vlog es = some (w2, vlog2, trace) →
      NoWrap vlog trace →
      ∀ s ∈ trace, active.Fid < s.1.fid ∨ (s.1.fid = active.Fid ∧ active.WriteAt ≤ s.1.offset) := by
  induction es with
  | nil =>
    intro w w2 vlog vlog2 active trace _ hrun _ s hs
    obtain ⟨-, -, ht⟩ := WriteAll_nil_inv env w w2 vlog vlog2 trace hrun
    rw [ht] at hs
    simp at hs
  | cons e es ih =>
    intro w w2 vlog vlog2 active trace hactive hrun hnw s hs
    obtain ⟨w1, vlog1, p, rest, hw, hrest, ht⟩ := WriteAll_cons_inv env w w2 vlog vlog2 e es trace hrun
    obtain ⟨a1, w0, lf0, ha1, -, hp, hok, hwr, hcase⟩ :=
      Write_ok_step env w w1 vlog vlog1 active e p hactive hw
    subst ht
    simp only [NoWrap, List.map_cons, List.chain_cons, activeFid_eq vlog active hactive,
      activeFid_eq vlog1 a1 ha1] at hnw
    obtain ⟨hstep, hchain⟩ := hnw
    have hnw1 : NoWrap vlog1 rest := by
      simp only [NoWrap, activeFid_eq vlog1 a1 ha1]
      exact hchain
    have hexact := LogFile.Write_WriteAt env hadv w0 lf0 e hok
    rw [← hwr] at hexact
    have hoff : p.offset = lf0.WriteAt := by
      rw [hp]
      exact offset_of_cursor lf0.WriteAt a1.WriteAt (env.Size e)
        (by rw [hexact]; exact (wrapInt64_of_inRange _ (hexact ▸ a1.WriteAt.inRange)).symm)
    have hfid1 : a1.Fid = lf0.Fid := by rw [hwr]; rfl
    have hfid : active.Fid ≤ a1.Fid := by omega
    have hcur : a1.Fid = active.Fid → active.WriteAt ≤ p.offset ∧
        active.WriteAt.val ≤ a1.WriteAt.val := by
      intro heq
      rcases hcase with ⟨-, hlf, -⟩ | ⟨-, hf, -⟩
      · rw [hoff, hexact, hlf]
        omega
      · omega
    rcases List.mem_cons.mp hs with h | h
    · subst h
      rcases Nat.lt_or_ge active.Fid a1.Fid with hlt | hge
      · exact Or.inl (by rw [hp]; exact hlt)
      · have heq : a1.Fid = active.Fid := by omega
        exact Or.inr ⟨by rw [hp]; exact heq, (hcur heq).1⟩
    · rcases ih w1 w2 vlog1 vlog2 a1 rest ha1 hrest hnw1 s h with h1 | ⟨h1, h2⟩
      · exact Or.inl (by omega)
      · rcases Nat.lt_or_ge active.Fid a1.Fid with hlt | hge
        · exact Or.inl (by omega)
        · have heq : a1.Fid = active.Fid := by omega
          exact Or.inr ⟨by omega, by have := (hcur heq).2; omega⟩

/-- C9: along every sequence of successful writes of entries of
positive size, an append advancing the cursor by exactly the entry size and
segment ids not wrapping, the positions returned are pairwise distinct, and
any two of them with the same fid have disjoint byte ranges. -/
theorem WriteAll_positions_never_reused (env : Logfile W ι) (hadv : AppendAdvances env)
    (es : List LogEntry) (hpos : ∀ e ∈ es, 0 < env.Size e) :
    ∀ (w w2 : W) (vlog vlog2 : ValueLog ι) (trace : List (ValuePos × ValueLog ι)),
      WriteAll env w vlog es = some (w2, vlog2, trace) →
      NoWrap vlog trace →
      List.Pairwise (fun p q : ValuePos => p ≠ q ∧ (p.fid = q.fid → p.disjoint q))
        (trace.map (fun s => s.1)) := by
  induction es with
  | nil =>
    intro w w2 vlog vlog2 trace hrun _
    obtain ⟨-, -, ht⟩ := WriteAll_nil_inv env w w2 vlog vlog2 trace hrun
    rw [ht]
    exact List.Pairwise.nil
  | cons e es ih =>
    intro w w2 vlog vlog2 trace hrun hnw
    obtain ⟨w1, vlog1, p, rest, hw, hrest, ht⟩ := WriteAll_cons_inv env w w2 vlog vlog2 e es trace hrun
    cases hactive : vlog.activeLogFile with
    | none => simp [Write, hactive] at hw
    | some active =>
      obtain ⟨a1, w0, lf0, ha1, -, hp, hok, hwr, -⟩ :=
        Write_ok_step env w w1 vlog vlog1 active e p hactive hw
      subst ht
      have hnw1 : NoWrap vlog1 rest := by
        simp only [NoWrap, List.map_cons, List.chain_cons] at hnw
        exact hnw.2
      have hsz : 0 < env.Size e := hpos e (List.mem_cons_self _ _)
      have hexact := LogFile.Write_WriteAt env hadv w0 lf0 e hok
      rw [← hwr] at hexact
      have hoff : p.offset = lf0.WriteAt := by
        rw [hp]
        exact offset_of_cursor lf0.WriteAt a1.WriteAt (env.Size e)
          (by rw [hexact]; exact (wrapInt64_of_inRange _ (hexact ▸ a1.WriteAt.inRange)).symm)
      have hpfid : p.fid = a1.Fid := by rw [hp]
      have hpsize : p.size ≤ env.Size e := by
        rw [hp]
        simp only [toUint32_wrapInt64]
        exact Nat.mod_le _ _
      simp only [List.map_cons, List.pairwise_cons]
      refine ⟨fun q hq => ?_, ih (fun x hx => hpos x (List.mem_cons_of_mem _ hx)) w1 w2 vlog1 vlog2
        rest hrest hnw1⟩
      obtain ⟨s, hs, hsq⟩ := List.mem_map.mp hq
      subst hsq
      rcases WriteAll_lower_bound env hadv es w1 w2 vlog1 vlog2 a1 rest ha1 hrest hnw1 s hs
        with h1 | ⟨h1, h2⟩
      · refine ⟨fun heq => ?_, fun hf => ?_⟩
        · rw [← heq, hpfid] at h1
          exact absurd h1 (lt_irrefl _)
        · rw [hpfid] at hf
          omega
      · refine ⟨fun heq => ?_, fun _ => Or.inl ?_⟩
        · rw [← heq, hoff] at h2
          omega
        · rw [hoff]
          have : (p.size : Int) ≤ (env.Size e : Int) := by exact_mod_cast hpsize
          omega

theorem WriteAll_positions_never_reused_witness :
    AppendAdvances memEnv ∧ (∀ e ∈ List.replicate 20 entry100, 0 < memEnv.Size e) ∧
    ∃ r, WriteAll memEnv disk0 vlog0 (List.replicate 20 entry100) = some r ∧
      NoWrap vlog0 r.2.2 ∧
      List.Pairwise (fun p q : ValuePos => p ≠ q ∧ (p.fid = q.fid → p.disjoint q))
        (r.2.2.map (fun s => s.1)) := by
  obtain ⟨r, hr⟩ := Option.isSome_iff_exists.mp
    (by decide : (WriteAll memEnv disk0 vlog0 (List.replicate 20 entry100)).isSome = true)
  have hnw : NoWrap vlog0 r.2.2 := by
    have h : (WriteAll memEnv disk0 vlog0 (List.replicate 20 entry100)).map
        (fun r => r.2.2.map (fun s => activeFid s.2))
        = some [0, 0, 0, 0, 0, 0, 0, 0, 0, 0, 1, 1, 1, 1, 1, 1, 1, 1, 1, 1] := by decide
    rw [hr] at h
    simp only [Option.map_some', Option.some.injEq] at h
    simp only [NoWrap, h]
    simp [List.chain_cons, activeFid, vlog0]
  exact ⟨memEnv_AppendAdvances, by decide, r, hr, hnw,
    WriteAll_positions_never_reused memEnv memEnv_AppendAdvances (List.replicate 20 entry100)
      (by decide) disk0 r.1 vlog0 r.2.1 r.2.2 hr hnw⟩

end sequences
section transparency
variable {W ι : Type}

/-- A successful `Write` keeps every id resolvable and makes the fid of the
position it returns resolvable. -/
theorem Write_resolves (env : Logfile W ι) (w w1 : W) (vlog vlog1 : ValueLog ι)
    (e : LogEntry) (p : ValuePos) (hwrite : Write env w vlog e = (w1, vlog1, .ok p)) :
    Resolves vlog1 p.fid ∧ ∀ fid, Resolves vlog fid → Resolves vlog1 fid := by
  cases hactive : vlog.activeLogFile with
  | none => simp [Write, hactive] at hwrite
  | some active =>
    obtain ⟨a1, w0, lf0, ha1, -, hp, -, hwr, hcase⟩ :=
      Write_ok_step env w w1 vlog vlog1 active e p hactive hwrite
    have hfid1 : a1.Fid = lf0.Fid := by rw [hwr]; rfl
    refine ⟨Or.inl (by rw [hp, activeFid_eq vlog1 a1 ha1]), fun fid hres => ?_⟩
    rw [Resolves, activeFid_eq vlog active hactive] at hres
    rw [Resolves, activeFid_eq vlog1 a1 ha1]
    rcases hcase with ⟨-, hlf, hl⟩ | ⟨-, -, closed, hl⟩
    · rw [hfid1, hlf, hl]
      exact hres
    · rw [hl]
      by_cases hk : fid = active.Fid
      · exact Or.inr (by rw [hk]; simp)
      · rcases hres with h | h
        · exact absurd h hk
        · exact Or.inr (by rw [Function.update_noteq hk]; exact h)

/-- Every position returned along a sequence of successful writes resolves
in the log the sequence ends with. -/
theorem WriteAll_resolves (env : Logfile W ι) (es : List LogEntry) :
    ∀ (w w2 : W) (vlog vlog2 : ValueLog ι) (trace : List (ValuePos × ValueLog ι)),
      WriteAll env w vlog es = some (w2, vlog2, trace) →
      (∀ fid, Resolves vlog fid → Resolves vlog2 fid) ∧
      ∀ s ∈ trace, Resolves vlog2 s.1.fid := by
  induction es with
  | nil =>
    intro w w2 vlog vlog2 trace hrun
    obtain ⟨-, hv, ht⟩ := WriteAll_nil_inv env w w2 vlog vlog2 trace hrun
    subst hv ht
    exact ⟨fun _ h => h, fun s hs => by simp at hs⟩
  | cons e es ih =>
    intro w w2 vlog vlog2 trace hrun
    obtain ⟨w1, vlog1, p, rest, hw, hrest, ht⟩ := WriteAll_cons_inv env w w2 vlog vlog2 e es trace hrun
    subst ht
    obtain ⟨hp, hkeep⟩ := Write_resolves env w w1 vlog vlog1 e p hw
    obtain ⟨hkeep1, hrestres⟩ := ih w1 w2 vlog1 vlog2 rest hrest
    refine ⟨fun fid h => hkeep1 fid (hkeep fid h), fun s hs => ?_⟩
    rcases List.mem_cons.mp hs with h | h
    · subst h
      exact hkeep1 _ hp
    · exact hrestres s h

/-- Along a sequence of successful writes without wrap the active id never
falls. -/
theorem WriteAll_fid_le (env : Logfile W ι) (es : List LogEntry) :
    ∀ (w w2 : W) (vlog vlog2 : ValueLog ι) (active : LogFile ι)
      (trace : List (ValuePos × ValueLog ι)),
      vlog.activeLogFile = some active →
      WriteAll env w vlog es = some (w2, vlog2, trace) →
      NoWrap vlog trace →
      ∃ a2, vlog2.activeLogFile = some a2 ∧ vlog2.opt = vlog.opt ∧ active.Fid ≤ a2.Fid := by
  induction es with
  | nil =>
    intro w w2 vlog vlog2 active trace hactive hrun _
    obtain ⟨-, hv, -⟩ := WriteAll_nil_inv env w w2 vlog vlog2 trace hrun
    subst hv
    exact ⟨active, hactive, rfl, le_refl _⟩
  | cons e es ih =>
    intro w w2 vlog vlog2 active trace hactive hrun hnw
    obtain ⟨w1, vlog1, p, rest, hw, hrest, ht⟩ := WriteAll_cons_inv env w w2 vlog vlog2 e es trace hrun
    obtain ⟨a1, w0, lf0, ha1, hopt, -, -, -, -⟩ :=
      Write_ok_step env w w1 vlog vlog1 active e p hactive hw
    subst ht
    simp only [NoWrap, List.map_cons, List.chain_cons, activeFid_eq vlog active hactive,
      activeFid_eq vlog1 a1 ha1] at hnw
    obtain ⟨hstep, hchain⟩ := hnw
    have hnw1 : NoWrap vlog1 rest := by
      simp only [NoWrap, activeFid_eq vlog1 a1 ha1]
      exact hchain
    obtain ⟨a2, ha2, hopt2, hle⟩ := ih w1 w2 vlog1 vlog2 a1 rest ha1 hrest hnw1
    exact ⟨a2, ha2, by rw [hopt2, hopt], by omega⟩

/-- Along a sequence of successful writes without wrap that ends on the
segment it started on, the cursor is the start cursor plus the sizes written,
and it lies below the block size after at least one write; the cursor starts
non-negative and the sizes fit below `2 ^ 63`. -/
theorem WriteAll_same_segment (env : Logfile W ι) (hadv : AppendAdvances64 env)
    (es : List LogEntry) :
    ∀ (w w2 : W) (vlog vlog2 : ValueLog ι) (active a2 : LogFile ι)
      (trace : List (ValuePos × ValueLog ι)),
      vlog.activeLogFile = some active →
      (0 : Int) ≤ active.WriteAt →
      (active.WriteAt : Int) + (((es.map env.Size).sum : Nat) : Int) < 9223372036854775808 →
      WriteAll env w vlog es = some (w2, vlog2, trace) →
      NoWrap vlog trace →
      vlog2.activeLogFile = some a2 → a2.Fid = active.Fid →
        (a2.WriteAt : Int) = (active.WriteAt : Int) + (((es.map env.Size).sum : Nat) : Int) ∧
        (es ≠ [] → (a2.WriteAt : Int) < vlog.opt.blockSize) := by
  induction es with
  | nil =>
    intro w w2 vlog vlog2 active a2 trace hactive _ _ hrun _ ha2 _
    obtain ⟨-, hv, -⟩ := WriteAll_nil_inv env w w2 vlog vlog2 trace hrun
    subst hv
    rw [hactive] at ha2
    simp only [Option.some.injEq] at ha2
    subst ha2
    exact ⟨by simp, fun h => absurd rfl h⟩
  | cons e es ih =>
    intro w w2 vlog vlog2 active a2 trace hactive hcur hfit hrun hnw ha2 heq
    obtain ⟨w1, vlog1, p, rest, hw, hrest, ht⟩ := WriteAll_cons_inv env w w2 vlog vlog2 e es trace hrun
    obtain ⟨a1, w0, lf0, ha1, hopt, -, hok, hwr, hcase⟩ :=
      Write_ok_step env w w1 vlog vlog1 active e p hactive hw
    subst ht
    simp only [NoWrap, List.map_cons, List.chain_cons, activeFid_eq vlog active hactive,
      activeFid_eq vlog1 a1 ha1] at hnw
    obtain ⟨hstep, hchain⟩ := hnw
    have hnw1 : NoWrap vlog1 rest := by
      simp only [NoWrap, activeFid_eq vlog1 a1 ha1]
      exact hchain
    obtain ⟨a2', ha2', -, hle⟩ := WriteAll_fid_le env es w1 w2 vlog1 vlog2 a1 rest ha1 hrest hnw1
    rw [ha2] at ha2'
    simp only [Option.some.injEq] at ha2'
    subst ha2'
    have hfid1 : a1.Fid = lf0.Fid := by rw [hwr]; rfl
    simp only [List.map_cons, List.sum_cons, Nat.cast_add] at hfit ⊢
    have hsumnn : (0 : Int) ≤ (((es.map env.Size).sum : Nat) : Int) := Int.ofNat_nonneg _
    have hsznn : (0 : Int) ≤ (env.Size e : Int) := Int.ofNat_nonneg _
    rcases hcase with ⟨hlt, hlf, -⟩ | ⟨-, hf, -⟩
    · subst hlf
      have hcur1 := LogFile.Write_WriteAt64 env hadv w0 lf0 e hok
      rw [← hwr] at hcur1
      have hin : wrapInt64 (lf0.WriteAt + (env.Size e : Int)) = lf0.WriteAt + (env.Size e : Int) :=
        wrapInt64_of_inRange _ ⟨by omega, by omega⟩
      rw [hin] at hcur1
      rw [wrapInt64_add_wrapInt64, hin] at hlt
      obtain ⟨hsum, hbelow⟩ := ih w1 w2 vlog1 vlog2 a1 a2 rest ha1 (by omega) (by omega)
        hrest hnw1 ha2 (by omega)
      refine ⟨by omega, fun _ => ?_⟩
      by_cases hes : es = []
      · subst hes
        simp only [List.map_nil, List.sum_nil, Nat.cast_zero, add_zero] at hsum
        omega
      · rw [← hopt]
        exact hbelow hes
    · omega

/-- C8 (counterexample): five runs on which the claim fails.  First,
starting on segment `4294967295` with block size 1024, twenty successful
writes of 100 bytes each (2000 bytes in all) end on the active segment 0,
whose id is not greater than the initial one.  Second, starting on segment 0
at cursor `2 ^ 63 - 1`, the cursor being advanced in `int64`, the same twenty
writes never rotate.  Third, they never rotate when the cursor starts at
`-5000`.  Fourth, with block size `-1` the empty sequence of writes has size
sum `0 > -1` and creates no segment.  Fifth, they never rotate when the
append leaves the cursor where it was. -/
theorem WriteAll_wraps_active_id :
    (OpenValueLog memEnv diskMax "db" 1024 0 = (diskMax, .ok vlogMax1024) ∧
      activeFid vlogMax1024 = 4294967295 ∧
      vlogMax1024.opt.blockSize < (((List.replicate 20 entry100).map memEnv.Size).sum : Nat) ∧
      (WriteAll memEnv diskMax vlogMax1024 (List.replicate 20 entry100)).map
        (fun r => (activeFid r.2.1, r.2.2.length)) = some (0, 20) ∧
      ¬ (4294967295 < 0)) ∧
    (AppendAdvances64 memEnvWrap ∧ activeFid vlogEdge = 0 ∧
      vlogEdge.opt.blockSize < (((List.replicate 20 entry100).map memEnvWrap.Size).sum : Nat) ∧
      (WriteAll memEnvWrap disk0 vlogEdge (List.replicate 20 entry100)).map
        (fun r => (activeFid r.2.1, r.2.2.length)) = some (0, 20)) ∧
    (activeFid vlogNegCursor = 0 ∧
      vlogNegCursor.opt.blockSize < (((List.replicate 20 entry100).map memEnv.Size).sum : Nat) ∧
      (WriteAll memEnv disk0 vlogNegCursor (List.replicate 20 entry100)).map
        (fun r => (activeFid r.2.1, r.2.2.length)) = some (0, 20)) ∧
    (activeFid vlogNegBlock = 0 ∧
      vlogNegBlock.opt.blockSize < ((([] : List LogEntry).map memEnv.Size).sum : Nat) ∧
      (WriteAll memEnv disk0 vlogNegBlock []).map
        (fun r => (activeFid r.2.1, r.2.2.length)) = some (0, 0)) ∧
    (activeFid vlog0 = 0 ∧
      vlog0.opt.blockSize < (((List.replicate 20 entry100).map memEnvStuck.Size).sum : Nat) ∧
      (WriteAll memEnvStuck disk0 vlog0 (List.replicate 20 entry100)).map
        (fun r => (activeFid r.2.1, r.2.2.length)) = some (0, 20)) :=
  ⟨⟨rfl, rfl, by decide, by decide, by decide⟩,
    ⟨memEnvWrap_AppendAdvances64, rfl, by decide, by decide⟩,
    ⟨rfl, by decide, by decide⟩,
    ⟨rfl, by decide, by decide⟩,
    ⟨rfl, by decide, by decide⟩⟩

/-- C8 (amended): for every log with a non-negative cursor and a
non-negative block size and every sequence of successful writes whose sizes
sum to more than the block size, an append advancing the cursor by exactly
the entry size (in `int64`), the cursor plus the sizes staying below
`2 ^ 63` and segment ids not wrapping, the final active id is strictly
greater than the initial one, and every position returned resolves in the
final log: its fid is the active id or a catalogue key, and `ReadValue` of it
does not return "log file not exists". -/
theorem WriteAll_rotation_transparent (env : Logfile W ι) (hadv : AppendAdvances64 env)
    (w w2 : W) (vlog vlog2 : ValueLog ι) (active : LogFile ι) (es : List LogEntry)
    (trace : List (ValuePos × ValueLog ι))
    (hactive : vlog.activeLogFile = some active)
    (hcur : (0 : Int) ≤ active.WriteAt) (hbs : 0 ≤ vlog.opt.blockSize)
    (hfit : (active.WriteAt : Int) + (((es.map env.Size).sum : Nat) : Int) < 9223372036854775808)
    (hrun : WriteAll env w vlog es = some (w2, vlog2, trace))
    (hsum : vlog.opt.blockSize < ((es.map env.Size).sum : Nat))
    (hnw : NoWrap vlog trace) :
    active.Fid < activeFid vlog2 ∧
    ∀ s ∈ trace, Resolves vlog2 s.1.fid ∧
      ∀ now n, (ReadValue env now w2 vlog2 (some s.1)).2.2 ≠ .error (.ErrLogFileNil n) := by
  obtain ⟨a2, ha2, -, hle⟩ := WriteAll_fid_le env es w w2 vlog vlog2 active trace hactive hrun hnw
  have hne : es ≠ [] := by
    rintro rfl
    simp only [List.map_nil, List.sum_nil, Nat.cast_zero] at hsum
    omega
  refine ⟨?_, fun s hs => ?_⟩
  · rw [activeFid_eq vlog2 a2 ha2]
    rcases Nat.lt_or_ge active.Fid a2.Fid with h | h
    · exact h
    · exfalso
      obtain ⟨h1, h2⟩ := WriteAll_same_segment env hadv es w w2 vlog vlog2 active a2 trace
        hactive hcur hfit hrun hnw ha2 (by omega)
      have := h2 hne
      omega
  · have hres := (WriteAll_resolves env es w w2 vlog vlog2 trace hrun).2 s hs
    refine ⟨hres, fun now n herr => ?_⟩
    obtain ⟨-, h1, h2⟩ := ReadValue_ErrLogFileNil_inv env now w2 vlog2 a2 s.1 n ha2 herr
    rw [Resolves, activeFid_eq vlog2 a2 ha2] at hres
    rcases hres with h | h
    · exact h1 h
    · exact h h2

theorem WriteAll_rotation_transparent_witness :
    AppendAdvances64 memEnv ∧
    vlog0.activeLogFile = some { Fid := 0, WriteAt := 0, IoSelector := some () } ∧
    vlog0.opt.blockSize = 1024 ∧
    (List.replicate 20 entry100).map memEnv.Size = List.replicate 20 100 ∧
    ∃ r, WriteAll memEnv disk0 vlog0 (List.replicate 20 entry100) = some r ∧
      r.2.2.length = 20 ∧ NoWrap vlog0 r.2.2 ∧
      (∀ k, Resolves r.2.1 k ↔ (k = 0 ∨ k = 1)) ∧
      (r.1.records.map (fun x => x.1)).dedup = [0, 1] ∧
      0 < activeFid r.2.1 ∧
      ∀ s ∈ r.2.2, Resolves r.2.1 s.1.fid ∧
        ∀ now n, (ReadValue memEnv now r.1 r.2.1 (some s.1)).2.2 ≠ .error (.ErrLogFileNil n) := by
  obtain ⟨r, hr⟩ := Option.isSome_iff_exists.mp
    (by decide : (WriteAll memEnv disk0 vlog0 (List.replicate 20 entry100)).isSome = true)
  have hnw : NoWrap vlog0 r.2.2 := by
    have h : (WriteAll memEnv disk0 vlog0 (List.replicate 20 entry100)).map
        (fun r => r.2.2.map (fun s => activeFid s.2))
        = some [0, 0, 0, 0, 0, 0, 0, 0, 0, 0, 1, 1, 1, 1, 1, 1, 1, 1, 1, 1] := by decide
    rw [hr] at h
    simp only [Option.map_some', Option.some.injEq] at h
    simp only [NoWrap, h]
    simp [List.chain_cons, activeFid, vlog0]
  have hlen : r.2.2.length = 20 := by
    have h : (WriteAll memEnv disk0 vlog0 (List.replicate 20 entry100)).map
        (fun r => r.2.2.length) = some 20 := by decide
    rw [hr] at h
    simpa using h
  have hrec : (r.1.records.map (fun x => x.1)).dedup = [0, 1] := by
    have h : (WriteAll memEnv disk0 vlog0 (List.replicate 20 entry100)).map
        (fun r => (r.1.records.map (fun x => x.1)).dedup) = some [0, 1] := by decide
    rw [hr] at h
    simpa using h
  have hfid : activeFid r.2.1 = 1 := by
    have h : (WriteAll memEnv disk0 vlog0 (List.replicate 20 entry100)).map
        (fun r => activeFid r.2.1) = some 1 := by decide
    rw [hr] at h
    simpa using h
  have hcat : r.2.1.logFiles = Function.update (fun _ => none) 0
      (some { Fid := 0, WriteAt := 1000, IoSelector := some () }) := by
    have h : (WriteAll memEnv disk0 vlog0 (List.replicate 20 entry100)).map
        (fun r => r.2.1.logFiles) = some (Function.update (fun _ => none) 0
          (some { Fid := 0, WriteAt := 1000, IoSelector := some () })) := rfl
    rw [hr] at h
    simpa using h
  have hkeys : ∀ k, Resolves r.2.1 k ↔ (k = 0 ∨ k = 1) := by
    intro k
    rw [Resolves, hfid, hcat]
    by_cases hk : k = 0
    · subst hk; simp
    · simp [Function.update_noteq hk, hk]
  exact ⟨memEnv_AppendAdvances64, rfl, rfl, by decide, r, hr, hlen, hnw, hkeys, hrec,
    (WriteAll_rotation_transparent memEnv memEnv_AppendAdvances64 disk0 r.1 vlog0 r.2.1
      { Fid := 0, WriteAt := 0, IoSelector := some () } (List.replicate 20 entry100) r.2.2
      rfl (by decide) (by decide) (by decide) hr (by decide) hnw)⟩

end transparency
/-! ## The invariant of the data model -/

section invariant
variable {W ι : Type}

theorem registerAll_foldl (fids : List Nat) (m : Nat → Option (LogFile ι)) (k : Nat) :
    (fids.foldl (fun m fid => Function.update m fid (some (placeholder fid))) m) k ≠ none ↔
      (k ∈ fids ∨ m k ≠ none) := by
  induction fids generalizing m with
  | nil => simp
  | cons fid rest ih =>
    rw [List.foldl_cons, ih]
    by_cases hk : k = fid
    · subst hk
      simp
    · simp [Function.update_noteq hk, hk]

/-- The keys of the catalogue built at open are the ids registered. -/
theorem registerAll_ne_none (fids : List Nat) (k : Nat) :
    (registerAll fids : Nat → Option (LogFile ι)) k ≠ none ↔ k ∈ fids := by
  unfold registerAll
  rw [registerAll_foldl]
  simp

/-- In a sorted list without duplicates every element but the last is
smaller than the last. -/
theorem dropLast_lt_getLast (l : List Nat) (last : Nat) (hs : l.Sorted (fun a b => a ≤ b))
    (hn : l.Nodup) (hl : l.getLast? = some last) : ∀ k ∈ l.dropLast, k < last := by
  have hlt : l.Sorted (fun a b => a < b) := hs.lt_of_le hn
  have happ := List.dropLast_append_getLast? last hl
  rw [← happ] at hlt
  intro k hk
  exact (List.pairwise_append.mp hlt).2.2 k hk last (List.mem_singleton_self _)

/-- What a successful `OpenValueLog` returns. -/
theorem OpenValueLog_ok_inv (env : Logfile W ι) (w w1 : W) (path : String) (blockSize : Int)
    (ioType : IoType) (vlog : ValueLog ι) (names : List String) (fids : List Nat)
    (hdir : (env.ReadDir w path).2 = .ok names)
    (hfids : collectFids env.VLogSuffixName names [] = .ok fids)
    (hopen : OpenValueLog env w path blockSize ioType = (w1, .ok vlog)) :
    ∃ last lf, (fids.insertionSort (fun a b => a ≤ b)).getLast? = some last ∧
      vlog.activeLogFile = some lf ∧ lf.Fid = last ∧
      vlog.logFiles = registerAll (fids.insertionSort (fun a b => a ≤ b)).dropLast := by
  unfold OpenValueLog at hopen
  rcases hd : env.ReadDir w path with ⟨w0, err | names0⟩
  · rw [hd] at hopen
    simp at hopen
  · rw [hd] at hdir hopen
    simp only [Except.ok.injEq] at hdir
    subst hdir
    simp only [hfids] at hopen
    cases hlast : (fids.insertionSort (fun a b => a ≤ b)).getLast? with
    | none =>
      rw [hlast] at hopen
      simp at hopen
    | some last =>
      rw [hlast] at hopen
      simp only at hopen
      rcases ho : OpenLogFile env w0 path last blockSize FileType.ValueLog ioType
        with ⟨w2, err | lf⟩
      · rw [ho] at hopen
        simp at hopen
      · rw [ho] at hopen
        simp only [Prod.mk.injEq, Result.ok.injEq] at hopen
        obtain ⟨-, hv⟩ := hopen
        subst hv
        exact ⟨last, lf, rfl, rfl, OpenLogFile_Fid env w0 w2 _ _ _ _ _ lf ho, rfl⟩

/-- The invariant holds right after a successful open, provided the segment
ids found are pairwise distinct. -/
theorem Inv_of_open (env : Logfile W ι) (w w1 : W) (path : String) (blockSize : Int)
    (ioType : IoType) (vlog : ValueLog ι) (names : List String) (fids : List Nat)
    (hdir : (env.ReadDir w path).2 = .ok names)
    (hfids : collectFids env.VLogSuffixName names [] = .ok fids)
    (hnodup : fids.Nodup)
    (hopen : OpenValueLog env w path blockSize ioType = (w1, .ok vlog)) : Inv vlog := by
  obtain ⟨last, lf, hlast, hact, hfid, hcat⟩ :=
    OpenValueLog_ok_inv env w w1 path blockSize ioType vlog names fids hdir hfids hopen
  have hs : (fids.insertionSort (fun a b => a ≤ b)).Sorted (fun a b => a ≤ b) :=
    List.sorted_insertionSort (fun a b => a ≤ b) fids
  have hn : (fids.insertionSort (fun a b => a ≤ b)).Nodup :=
    (List.perm_insertionSort (fun a b => a ≤ b) fids).nodup_iff.mpr hnodup
  have hlt := dropLast_lt_getLast _ last hs hn hlast
  have hkeys : ∀ k, vlog.logFiles k ≠ none → k < lf.Fid := by
    intro k hk
    rw [hcat, registerAll_ne_none] at hk
    rw [hfid]
    exact hlt k hk
  refine ⟨lf, hact, ?_, hkeys⟩
  by_contra hne
  exact absurd (hkeys lf.Fid hne) (lt_irrefl _)

/-- The function `selectLogFile` keeps the active segment and the keys of the catalogue. -/
theorem selectLogFile_state (env : Logfile W ι) (w : W) (vlog : ValueLog ι)
    (active : LogFile ι) (fid : Nat) :
    (selectLogFile env w vlog active fid).2.1.activeLogFile = vlog.activeLogFile ∧
    ∀ k, (selectLogFile env w vlog active fid).2.1.logFiles k ≠ none ↔ vlog.logFiles k ≠ none := by
  unfold selectLogFile
  by_cases hfid : fid = active.Fid
  · simp [hfid]
  · cases hcat : vlog.logFiles fid with
    | none => simp [hfid]
    | some logFile =>
      by_cases hsel : logFile.IoSelector.isNone = true
      · rcases ho : OpenLogFile env w vlog.opt.path fid vlog.opt.blockSize FileType.ValueLog
          vlog.opt.ioType with ⟨w1, err | lf⟩
        · simp [hfid, hsel, ho]
        · simp only [hfid, hsel, ho, if_true, if_false, true_and]
          intro k
          by_cases hk : k = fid
          · subst hk
            simp [hcat]
          · simp [Function.update_noteq hk]
      · simp [hfid, hsel]

/-- The function `ReadValue` keeps the active segment and the keys of the catalogue. -/
theorem ReadValue_state (env : Logfile W ι) (now : Int) (w : W) (vlog : ValueLog ι)
    (pos : Option ValuePos) :
    (ReadValue env now w vlog pos).2.1.activeLogFile = vlog.activeLogFile ∧
    ∀ k, (ReadValue env now w vlog pos).2.1.logFiles k ≠ none ↔ vlog.logFiles k ≠ none := by
  cases pos with
  | none => simp [ReadValue]
  | some pos =>
    cases hactive : vlog.activeLogFile with
    | none => simp [ReadValue, hactive]
    | some active =>
      have hsel := selectLogFile_state env w vlog active pos.fid
      rw [hactive] at hsel
      have hst : (ReadValue env now w vlog (some pos)).2.1 =
          (selectLogFile env w vlog active pos.fid).2.1 := by
        simp only [ReadValue, hactive]
        rcases hs : selectLogFile env w vlog active pos.fid with ⟨w1, vlog1, err | _ | logFile⟩
        · rfl
        · rfl
        · simp only
          rcases hr : LogFile.Read env w1 logFile pos.offset with ⟨w2, err | entry⟩
          · rfl
          · simp only
            split <;> rfl
      rw [hst]
      exact hsel

/-- Every call that is no broken rotation preserves the invariant. -/
theorem Inv_step (env : Logfile W ι) (s : W × ValueLog ι) (c : Call) (hinv : Inv s.2)
    (hc : brokenRotation env s c = false) : Inv (step env s c).2 := by
  obtain ⟨active, hactive, hnone, hkeys⟩ := hinv
  cases c with
  | readValue now pos =>
    obtain ⟨h1, h2⟩ := ReadValue_state env now s.1 s.2 pos
    refine ⟨active, by simp only [step]; rw [h1, hactive], ?_, fun k hk => ?_⟩
    · by_contra hne
      exact hnone.symm ▸ (h2 active.Fid).mp hne <| rfl
    · exact hkeys k ((h2 k).mp hk)
  | sync =>
    refine ⟨(LogFile.Sync env s.1 active).2.1, ?_, ?_, ?_⟩
    · simp [step, Sync, hactive]
    · simpa [step, Sync, hactive] using hnone
    · simpa [step, Sync, hactive] using hkeys
  | close =>
    refine ⟨(LogFile.Close env s.1 active).2.1, ?_, ?_, ?_⟩
    · simp [step, Close, hactive]
    · simpa [step, Close, hactive] using hnone
    · simpa [step, Close, hactive] using hkeys
  | write e =>
    simp only [step]
    by_cases hlt : wrapInt64 (active.WriteAt + wrapInt64 (env.Size e : Int))
        < s.2.opt.blockSize
    · rw [Write_below env s.1 s.2 active e hactive hlt, appendActive_state]
      exact ⟨_, rfl, hnone, hkeys⟩
    · have hge := not_lt.mp hlt
      cases hclose : (LogFile.Close env s.1 active).2.2 with
      | some err =>
        rw [Write_close_fails env s.1 s.2 active e err hactive hge hclose]
        exact ⟨_, rfl, hnone, hkeys⟩
      | none =>
        simp only [brokenRotation, hactive, hge, hclose, decide_True, Option.isNone_none,
          Bool.true_and, Bool.or_eq_false_iff, decide_eq_false_iff_not, not_le] at hc
        obtain ⟨hsmall, hcr⟩ := hc
        rcases hcreate : createLogFile env (LogFile.Close env s.1 active).1 s.2
          (LogFile.Close env s.1 active).2.1 with ⟨w2, err | lf⟩
        · rw [hcreate] at hcr
          simp at hcr
        · rw [Write_rotates env s.1 w2 s.2 active lf e hactive hge hclose hcreate,
            appendActive_state]
          have hfid := createLogFile_Fid env _ w2 s.2 _ lf hcreate
          have hcf : (LogFile.Close env s.1 active).2.1.Fid = active.Fid := rfl
          rw [hcf, Nat.mod_eq_of_lt hsmall] at hfid
          have hkeys1 : ∀ k, Function.update s.2.logFiles active.Fid
              (some (LogFile.Close env s.1 active).2.1) k ≠ none → k < active.Fid + 1 := by
            intro k hk
            by_cases hka : k = active.Fid
            · omega
            · rw [Function.update_noteq hka] at hk
              have := hkeys k hk
              omega
          refine ⟨(LogFile.Write env w2 lf e).2.1, rfl, ?_, fun k hk => ?_⟩
          · by_contra hne
            have := hkeys1 _ hne
            simp only [LogFile.Write_Fid, hfid] at this
            omega
          · simp only [LogFile.Write_Fid, hfid]
            exact hkeys1 k hk

/-- The invariant holds after every sequence of calls without a broken
rotation. -/
theorem Inv_run (env : Logfile W ι) (calls : List Call) :
    ∀ s : W × ValueLog ι, Inv s.2 → noBrokenRotation env s calls = true →
      Inv (run env s calls).2 := by
  induction calls with
  | nil => intro s h _; exact h
  | cons c cs ih =>
    intro s hinv hnb
    simp only [noBrokenRotation, Bool.and_eq_true, Bool.not_eq_true'] at hnb
    exact ih (step env s c) (Inv_step env s c hinv hnb.1) hnb.2

/-- C4 (counterexample): the log opened on segment `4294967295`
rotates successfully to segment 0; the catalogue then holds the id
`4294967295`, which the active id 0 does not exceed. -/
theorem Inv_fails_after_wrap :
    OpenValueLog memEnv diskMax "db" 2 0 = (diskMax, .ok vlogMax) ∧
    (Write memEnv diskMax vlogMax entryKV).2.2 = .ok { fid := 0, offset := 0, size := 2 } ∧
    (run memEnv (diskMax, vlogMax) [Call.write entryKV]).2.activeLogFile
      = some { Fid := 0, WriteAt := 2, IoSelector := some () } ∧
    (run memEnv (diskMax, vlogMax) [Call.write entryKV]).2.logFiles 4294967295 ≠ none ∧
    ¬ Inv (run memEnv (diskMax, vlogMax) [Call.write entryKV]).2 := by
  refine ⟨rfl, by decide, rfl, by decide, ?_⟩
  rintro ⟨active, hactive, -, hkeys⟩
  have ha : (run memEnv (diskMax, vlogMax) [Call.write entryKV]).2.activeLogFile
      = some { Fid := 0, WriteAt := 2, IoSelector := some () } := rfl
  rw [ha] at hactive
  have hfid : active.Fid = 0 := by
    rw [← Option.some.inj hactive]
  have := hkeys 4294967295 (by decide)
  omega

/-- The error path of the rotation: when the next segment cannot be created
the call returns the error, and the closed segment stays active while it is
also a key of the catalogue. -/
theorem Write_failed_creation_state :
    OpenValueLog memEnv diskFull "db" 2 0 = (diskFull, .ok vlogSmall) ∧
    (Write memEnv diskFull vlogSmall entryKV).2.2 = .error (.ext ⟨13⟩) ∧
    (Write memEnv diskFull vlogSmall entryKV).2.1.activeLogFile
      = some { Fid := 0, WriteAt := 0, IoSelector := some () } ∧
    (Write memEnv diskFull vlogSmall entryKV).2.1.logFiles 0
      = some { Fid := 0, WriteAt := 0, IoSelector := some () } ∧
    ¬ Inv (Write memEnv diskFull vlogSmall entryKV).2.1 := by
  refine ⟨rfl, by decide, by decide, by decide, ?_⟩
  rintro ⟨active, hactive, hnone, -⟩
  have ha : (Write memEnv diskFull vlogSmall entryKV).2.1.activeLogFile
      = some { Fid := 0, WriteAt := 0, IoSelector := some () } := rfl
  rw [ha] at hactive
  have hfid : active.Fid = 0 := by
    rw [← Option.some.inj hactive]
  rw [hfid] at hnone
  exact absurd hnone (by decide)

/-- C4 (amended): in every state reached from a successful
`OpenValueLog`, on a directory whose segment names yield pairwise distinct
ids, by any sequence of `Write`, `ReadValue`, `Sync` and `Close` calls
(calls that return an error included) in which no rotation wraps the id past
`2 ^ 32 - 1` and no rotation fails to create its segment, there is an active
segment, its id is no key of the catalogue, and it is strictly greater than
every key of the catalogue. -/
theorem Inv_of_reachable (env : Logfile W ι) (w w1 : W) (path : String) (blockSize : Int)
    (ioType : IoType) (vlog : ValueLog ι) (names : List String) (fids : List Nat)
    (calls : List Call)
    (hdir : (env.ReadDir w path).2 = .ok names)
    (hfids : collectFids env.VLogSuffixName names [] = .ok fids)
    (hnodup : fids.Nodup)
    (hopen : OpenValueLog env w path blockSize ioType = (w1, .ok vlog))
    (hcalls : noBrokenRotation env (w1, vlog) calls = true) :
    ∃ active, (run env (w1, vlog) calls).2.activeLogFile = some active ∧
      (run env (w1, vlog) calls).2.logFiles active.Fid = none ∧
      ∀ k, (run env (w1, vlog) calls).2.logFiles k ≠ none → k < active.Fid :=
  Inv_run env calls (w1, vlog)
    (Inv_of_open env w w1 path blockSize ioType vlog names fids hdir hfids hnodup hopen) hcalls

theorem Inv_of_reachable_witness :
    (memEnv.ReadDir disk0 "db").2 = .ok ["0.vlog"] ∧
    collectFids memEnv.VLogSuffixName ["0.vlog"] [] = .ok [0] ∧
    [0].Nodup ∧
    OpenValueLog memEnv disk0 "db" 1024 0 = (disk0, .ok vlog0) ∧
    noBrokenRotation memEnv (disk0, vlog0) sampleCalls = true ∧
    activeFid (run memEnv (disk0, vlog0) sampleCalls).2 = 1 ∧
    ∃ active, (run memEnv (disk0, vlog0) sampleCalls).2.activeLogFile = some active ∧
      (run memEnv (disk0, vlog0) sampleCalls).2.logFiles active.Fid = none ∧
      ∀ k, (run memEnv (disk0, vlog0) sampleCalls).2.logFiles k ≠ none → k < active.Fid :=
  ⟨rfl, by decide, by decide, rfl, by decide, by decide,
    Inv_of_reachable memEnv disk0 disk0 "db" 1024 0 vlog0 ["0.vlog"] [0] sampleCalls
      rfl (by decide) (by decide) rfl (by decide)⟩

end invariant

/-! ## The hash-skiplist -/

/-- C10: on every `HashSkipList`, for every key `k` and value `v`,
`Get(k)` after `Put(k, v)` returns the entry that `Put` returned, whose key
is exactly `k`, whose value is exactly `v` and whose expiry is unset. -/
theorem HashSkipList.Get_after_Put (h : HashSkipList) (k v : Bytes) :
    (h.Put k v).1.Get k = some (h.Put k v).2 ∧
    (h.Put k v).2 = { Key := k, Value := v, ExpiredAt := 0 } := by
  refine ⟨?_, rfl⟩
  simp [HashSkipList.Put, HashSkipList.Get]

/-- The scenario of `TestHashSkipList_Get` and `TestHashSkipList_Remove`. -/
theorem TestHashSkipList_Get :
    (NewHashSkipList.Put lotusdb lotusdb).1.Get lotusdb
      = some { Key := lotusdb, Value := lotusdb, ExpiredAt := 0 } ∧
    ((NewHashSkipList.Put lotusdb lotusdb).1.Remove lotusdb).Get lotusdb = none ∧
    ((NewHashSkipList.Put lotusdb lotusdb).1.Remove lotusdb).Exist lotusdb = false := by
  refine ⟨by decide, by decide, by decide⟩

end LotusDB
